import Mathlib

/-!
Verification of the design-storm core (`design_storm.py`).

Shallow embedding of the temporal-pattern resampling engine and of the
depth-duration-frequency (DDF) table resolver of the repository, together
with proofs settling the specification claims.

Modelling conventions:
* Python/numpy floating-point numbers are modelled as exact elements of a
  linear ordered field (`ℚ` where the code path is rational-valued, `ℝ` for
  the Beta-density path which uses `exp`/`log`).  In this exact model
  `np.isfinite` is identically true, and float literals such as `0.0017`
  denote the corresponding exact decimal rationals.
* `numpy` arrays are lists; `np.interp`, `np.linspace`, `np.diff`,
  `np.cumsum`, `np.roll`, `np.argmax` and Python's `min(...)`/`.index(...)`
  are given as executable list functions mirroring the numpy semantics on
  the inputs the program feeds them.
* Functions that `raise ValueError` are embedded in `Except String`.
* File/network I/O is abstracted: the user curve CSV at `custom_curve_path`
  becomes the list of its two-column rows, and the NOAA table fetch becomes
  an `Option DDFTable` argument standing for the (already parsed) download
  result.
-/

-- Batteries seals the rational primitives; reopening them lets `decide`
-- evaluate the executable embedding inside the kernel.
attribute [local semireducible] Rat.mul Rat.inv Rat.add Rat.sub Rat.ofScientific

variable {K : Type} [LinearOrderedField K]

/-- `np.diff` on a 1-d array: consecutive differences. -/
def diffs : List K → List K
  | a :: b :: t => (b - a) :: diffs (b :: t)
  | _ => []

/-- Helper for `np.cumsum`: running sums starting from `acc`. -/
def cumsumFrom (acc : K) : List K → List K
  | [] => []
  | x :: t => (acc + x) :: cumsumFrom (acc + x) t

/-- `np.cumsum` on a 1-d array. -/
def cumsum (l : List K) : List K := cumsumFrom 0 l

/-- `np.linspace a b m` (with endpoint): `m` evenly spaced points from `a`
to `b`.  For `m = 1` the division by `m - 1 = 0` is `0` in a field, giving
`[a]` as numpy does. -/
def linspace (a b : K) (m : ℕ) : List K :=
  (List.range m).map (fun i : ℕ => a + (b - a) * (i : K) / ((m - 1 : ℕ) : K))

/-- `np.all(np.diff(arr) >= 0)`: the array is non-decreasing. -/
def monoND : List K → Bool
  | a :: b :: t => decide (a ≤ b) && monoND (b :: t)
  | _ => true

/-- `np.interp x xp fp` for the strictly increasing sample grids `xp` used
by the program: below the grid it returns the first `fp` value, above it
the last one, and in between it interpolates linearly on the surrounding
grid interval. -/
def interpolate (x : K) : List K → List K → K
  | x1 :: x2 :: xt, y1 :: y2 :: yt =>
      if x ≤ x1 then y1
      else if x ≤ x2 then y1 + (y2 - y1) * (x - x1) / (x2 - x1)
      else interpolate x (x2 :: xt) (y2 :: yt)
  | _ :: [], y1 :: _ => y1
  | _, _ => 0

/-- numpy `arr.max()` (`0` on the empty array, which numpy instead rejects;
all call sites guard against emptiness). -/
def maxList : List K → K
  | [] => 0
  | a :: t => t.foldl max a

/-- `_storm_from_table(depth, n, table)`: resample a dimensionless
cumulative rainfall curve and return increments that sum to `depth`.
The `np.isfinite(s)` test of the source is identically true in this exact
model, so only the `s <= 0` branch of the degeneracy test remains.
`resampleIncrements` is its raw-increment pipeline: replace an all-zero
curve by a linear ramp, normalize by the last value, resample onto the
`n + 1`-point grid over `[0, 1]` by index-based linear interpolation, and
take consecutive differences. -/
def resampleIncrements (table : List K) (n : ℕ) : List K :=
  let arr := if table.getLastD 0 = 0 then linspace 0 1 table.length else table
  let norm := arr.map (· / arr.getLastD 0)
  diffs ((linspace 0 1 (n + 1)).map fun g => interpolate g (linspace 0 1 norm.length) norm)

/-- `_storm_from_table(depth, n, table)` proper: validation, the resampled
raw increments, the uniform degenerate fallback, and the exact rescale of
the increments to sum to `depth`. -/
def stormFromTable (depth : K) (n : ℕ) (table : List K) : Except String (List K) :=
  if table.length < 2 then .error "Dimensionless table must have at least two values"
  else if !monoND table then .error "Dimensionless table must be non-decreasing"
  else if (resampleIncrements table n).sum ≤ 0 then
    .ok (List.replicate n (depth / ((max n 1 : ℕ) : K)))
  else
    .ok ((resampleIncrements table n).map fun v => v / (resampleIncrements table n).sum * depth)

/-- The per-column normalization heuristic of `_user_pdf`: a column whose
maximum exceeds 1 is divided by its own maximum, any other column is left
unchanged. -/
def normalizeCol (l : List K) : List K :=
  if 1 < maxList l then l.map (· / maxList l) else l

/-- The interpolation part of `_user_pdf`: resample the cumulative curve
with sample positions `t` and values `c` onto the `n + 1`-point grid over
`[0, 1]` and take consecutive differences. -/
def userIncrements (t c : List K) (n : ℕ) : List K :=
  diffs ((linspace 0 1 (n + 1)).map fun g => interpolate g t c)

/-- `_user_pdf(n, path)` with the CSV contents at `path` abstracted to the
list of its `(first column, second column)` rows.  An empty file makes
`t.max()` raise (numpy `ValueError`), modelled by the error branch; the
remaining body never raises. -/
def userPdf (n : ℕ) (rows : List (K × K)) : Except String (List K) :=
  if rows.isEmpty then .error "zero-size array to reduction operation maximum"
  else if (userIncrements (normalizeCol (rows.map Prod.fst))
      (normalizeCol (rows.map Prod.snd)) n).sum ≤ 0 then
    .ok (List.replicate n (1 / (n : K)))
  else
    .ok ((userIncrements (normalizeCol (rows.map Prod.fst))
      (normalizeCol (rows.map Prod.snd)) n).map
      (· / (userIncrements (normalizeCol (rows.map Prod.fst))
        (normalizeCol (rows.map Prod.snd)) n).sum))

/-- The mid-bin sample points `np.linspace(0, 1, n, endpoint=False) + 0.5/n`
used by `_beta_pdf`, i.e. `x_i = i/n + 0.5/n = (i + 0.5)/n`. -/
noncomputable def midBinPoints (n : ℕ) : List ℝ :=
  (List.range n).map fun i : ℕ => (i : ℝ) / n + 0.5 / n

/-- `np.clip v lo hi`. -/
noncomputable def clip (v lo hi : ℝ) : ℝ := max lo (min v hi)

/-- The unnormalized density samples of `_beta_pdf`: the log-space Beta
density evaluated at the mid-bin points and exponentiated. -/
noncomputable def betaRaw (n : ℕ) (a b : ℝ) : List ℝ :=
  (midBinPoints n).map fun x =>
    Real.exp ((a - 1) * Real.log (clip x 1e-12 1) + (b - 1) * Real.log (clip (1 - x) 1e-12 1))

/-- `_beta_pdf(n, alpha, beta)`: dimensionless pattern from Beta(α, β) on
`[0,1]`, no circular shift.  Evaluated in log space exactly as the source;
again `np.isfinite` is identically true in the exact real model. -/
noncomputable def betaPdf (n : ℕ) (a b : ℝ) : List ℝ :=
  if (betaRaw n a b).sum ≤ 0 then List.replicate n (1 / (n : ℝ))
  else (betaRaw n a b).map (· / (betaRaw n a b).sum)

/-- `np.roll a k`: circular shift moving each element `k` places to the
right (the element at index `j` ends up at index `(j + k) % len`). -/
def rollRight (l : List α) (k : ℕ) : List α :=
  if l.length = 0 then l
  else l.drop (l.length - k % l.length) ++ l.take (l.length - k % l.length)

/-- `np.argmax`: index of the first occurrence of the maximum value.
Embedded, like the Python `diffs.index(min(diffs))` idiom below, as the
first index holding the extremal value. -/
noncomputable def argmaxL (l : List ℝ) : ℕ := l.indexOf (maxList l)

/-- `beta_curve(n, alpha, beta, peak)`: normalized Beta shape circularly
shifted so that its maximum lands at index `peak`. -/
noncomputable def betaCurve (n : ℕ) (a b : ℝ) (peak : ℤ) : List ℝ :=
  if n = 0 then betaPdf n a b
  else if ((peak - (argmaxL (betaPdf n a b) : ℤ)) % (n : ℤ)).toNat ≠ 0 then
    rollRight (betaPdf n a b) (((peak - (argmaxL (betaPdf n a b) : ℤ)) % (n : ℤ)).toNat)
  else betaPdf n a b

/-- `PROPORTION_TABLES["scs_type_ia"]`: 24-hour NRCS Type IA distribution. -/
def scsTypeIA : List ℚ := [
  0.0000, 0.0100, 0.0220, 0.0360, 0.0510,
  0.0670, 0.0830, 0.0990, 0.1160, 0.1350,
  0.1560, 0.1790, 0.2040, 0.2330, 0.2680,
  0.3100, 0.4250, 0.4800, 0.5200, 0.5500,
  0.5770, 0.6010, 0.6230, 0.6440, 0.6640,
  0.6830, 0.7010, 0.7190, 0.7360, 0.7530,
  0.7690, 0.7850, 0.8000, 0.8150, 0.8300,
  0.8440, 0.8580, 0.8710, 0.8840, 0.8960,
  0.9080, 0.9200, 0.9320, 0.9440, 0.9560,
  0.9670, 0.9780, 0.9890, 1.0000]

/-- `PROPORTION_TABLES["scs_type_i"]`: 24-hour NRCS distribution. -/
def scsTypeI : List ℚ := [
  0.0000, 0.0017, 0.0035, 0.0052, 0.0070, 0.0087, 0.0105, 0.0122, 0.0139,
  0.0157, 0.0174, 0.0192, 0.0210, 0.0227, 0.0245, 0.0262, 0.0280, 0.0297,
  0.0315, 0.0332, 0.0350, 0.0368, 0.0386, 0.0404, 0.0423, 0.0442, 0.0461,
  0.0480, 0.0500, 0.0520, 0.0540, 0.0561, 0.0582, 0.0603, 0.0625, 0.0647,
  0.0669, 0.0691, 0.0714, 0.0737, 0.0760, 0.0784, 0.0807, 0.0831, 0.0855,
  0.0878, 0.0902, 0.0926, 0.0951, 0.0975, 0.1000, 0.1024, 0.1049, 0.1073,
  0.1098, 0.1123, 0.1148, 0.1174, 0.1199, 0.1225, 0.1250, 0.1276, 0.1303,
  0.1332, 0.1361, 0.1391, 0.1423, 0.1456, 0.1489, 0.1524, 0.1560, 0.1597,
  0.1633, 0.1671, 0.1708, 0.1746, 0.1784, 0.1823, 0.1861, 0.1901, 0.1940,
  0.1982, 0.2027, 0.2077, 0.2132, 0.2190, 0.2252, 0.2318, 0.2388, 0.2462,
  0.2540, 0.2623, 0.2714, 0.2812, 0.2917, 0.3030, 0.3194, 0.3454, 0.3878,
  0.4632, 0.5150, 0.5322, 0.5476, 0.5612, 0.5730, 0.5830, 0.5919, 0.6003,
  0.6083, 0.6159, 0.6230, 0.6298, 0.6365, 0.6430, 0.6493, 0.6555, 0.6615,
  0.6674, 0.6731, 0.6786, 0.6840, 0.6892, 0.6944, 0.6995, 0.7044, 0.7092,
  0.7140, 0.7186, 0.7232, 0.7276, 0.7320, 0.7362, 0.7404, 0.7444, 0.7484,
  0.7523, 0.7560, 0.7596, 0.7632, 0.7667, 0.7700, 0.7733, 0.7766, 0.7798,
  0.7830, 0.7862, 0.7894, 0.7926, 0.7958, 0.7989, 0.8020, 0.8051, 0.8082,
  0.8112, 0.8142, 0.8173, 0.8202, 0.8232, 0.8262, 0.8291, 0.8320, 0.8349,
  0.8378, 0.8406, 0.8434, 0.8462, 0.8490, 0.8518, 0.8546, 0.8573, 0.8600,
  0.8627, 0.8654, 0.8680, 0.8706, 0.8733, 0.8758, 0.8784, 0.8810, 0.8835,
  0.8860, 0.8885, 0.8910, 0.8934, 0.8958, 0.8982, 0.9006, 0.9030, 0.9054,
  0.9077, 0.9100, 0.9123, 0.9146, 0.9168, 0.9190, 0.9212, 0.9234, 0.9256,
  0.9278, 0.9299, 0.9320, 0.9341, 0.9362, 0.9382, 0.9402, 0.9423, 0.9442,
  0.9462, 0.9482, 0.9501, 0.9520, 0.9539, 0.9558, 0.9576, 0.9594, 0.9613,
  0.9630, 0.9648, 0.9666, 0.9683, 0.9700, 0.9717, 0.9734, 0.9750, 0.9766,
  0.9783, 0.9798, 0.9814, 0.9830, 0.9845, 0.9860, 0.9875, 0.9890, 0.9904,
  0.9918, 0.9933, 0.9946, 0.9960, 0.9974, 0.9987, 1.0000]

/-- `PROPORTION_TABLES["scs_type_ii"]`: 24-hour NRCS distribution. -/
def scsTypeII : List ℚ := [
  0.0000, 0.0010, 0.0020, 0.0030, 0.0041, 0.0051, 0.0062, 0.0072, 0.0083,
  0.0094, 0.0105, 0.0116, 0.0127, 0.0138, 0.0150, 0.0161, 0.0173, 0.0184,
  0.0196, 0.0208, 0.0220, 0.0232, 0.0244, 0.0257, 0.0269, 0.0281, 0.0294,
  0.0306, 0.0319, 0.0332, 0.0345, 0.0358, 0.0371, 0.0384, 0.0398, 0.0411,
  0.0425, 0.0439, 0.0452, 0.0466, 0.0480, 0.0494, 0.0508, 0.0523, 0.0538,
  0.0553, 0.0568, 0.0583, 0.0598, 0.0614, 0.0630, 0.0646, 0.0662, 0.0679,
  0.0696, 0.0712, 0.0730, 0.0747, 0.0764, 0.0782, 0.0800, 0.0818, 0.0836,
  0.0855, 0.0874, 0.0892, 0.0912, 0.0931, 0.0950, 0.0970, 0.0990, 0.1010,
  0.1030, 0.1051, 0.1072, 0.1093, 0.1114, 0.1135, 0.1156, 0.1178, 0.1200,
  0.1222, 0.1246, 0.1270, 0.1296, 0.1322, 0.1350, 0.1379, 0.1408, 0.1438,
  0.1470, 0.1502, 0.1534, 0.1566, 0.1598, 0.1630, 0.1663, 0.1697, 0.1733,
  0.1771, 0.1810, 0.1851, 0.1895, 0.1941, 0.1989, 0.2040, 0.2094, 0.2152,
  0.2214, 0.2280, 0.2350, 0.2427, 0.2513, 0.2609, 0.2715, 0.2830, 0.3068,
  0.3544, 0.4308, 0.5679, 0.6630, 0.6820, 0.6986, 0.7130, 0.7252, 0.7350,
  0.7434, 0.7514, 0.7588, 0.7656, 0.7720, 0.7780, 0.7836, 0.7890, 0.7942,
  0.7990, 0.8036, 0.8080, 0.8122, 0.8162, 0.8200, 0.8237, 0.8273, 0.8308,
  0.8342, 0.8376, 0.8409, 0.8442, 0.8474, 0.8505, 0.8535, 0.8565, 0.8594,
  0.8622, 0.8649, 0.8676, 0.8702, 0.8728, 0.8753, 0.8777, 0.8800, 0.8823,
  0.8845, 0.8868, 0.8890, 0.8912, 0.8934, 0.8955, 0.8976, 0.8997, 0.9018,
  0.9038, 0.9058, 0.9078, 0.9097, 0.9117, 0.9136, 0.9155, 0.9173, 0.9192,
  0.9210, 0.9228, 0.9245, 0.9263, 0.9280, 0.9297, 0.9313, 0.9330, 0.9346,
  0.9362, 0.9377, 0.9393, 0.9408, 0.9423, 0.9438, 0.9452, 0.9466, 0.9480,
  0.9493, 0.9507, 0.9520, 0.9533, 0.9546, 0.9559, 0.9572, 0.9584, 0.9597,
  0.9610, 0.9622, 0.9635, 0.9647, 0.9660, 0.9672, 0.9685, 0.9697, 0.9709,
  0.9722, 0.9734, 0.9746, 0.9758, 0.9770, 0.9782, 0.9794, 0.9806, 0.9818,
  0.9829, 0.9841, 0.9853, 0.9864, 0.9876, 0.9887, 0.9899, 0.9910, 0.9922,
  0.9933, 0.9944, 0.9956, 0.9967, 0.9978, 0.9989, 1.0000]

/-- `PROPORTION_TABLES["scs_type_iii"]`: 24-hour NRCS distribution. -/
def scsTypeIII : List ℚ := [
  0.0000, 0.0010, 0.0020, 0.0030, 0.0040, 0.0050, 0.0060, 0.0070, 0.0080,
  0.0090, 0.0100, 0.0110, 0.0120, 0.0130, 0.0140, 0.0150, 0.0160, 0.0170,
  0.0180, 0.0190, 0.0200, 0.0210, 0.0220, 0.0231, 0.0241, 0.0252, 0.0263,
  0.0274, 0.0285, 0.0296, 0.0308, 0.0319, 0.0331, 0.0343, 0.0355, 0.0367,
  0.0379, 0.0392, 0.0404, 0.0417, 0.0430, 0.0443, 0.0456, 0.0470, 0.0483,
  0.0497, 0.0511, 0.0525, 0.0539, 0.0553, 0.0567, 0.0582, 0.0597, 0.0612,
  0.0627, 0.0642, 0.0657, 0.0673, 0.0688, 0.0704, 0.0720, 0.0736, 0.0753,
  0.0770, 0.0788, 0.0806, 0.0825, 0.0844, 0.0864, 0.0884, 0.0905, 0.0926,
  0.0948, 0.0970, 0.0993, 0.1016, 0.1040, 0.1064, 0.1089, 0.1114, 0.1140,
  0.1167, 0.1194, 0.1223, 0.1253, 0.1284, 0.1317, 0.1350, 0.1385, 0.1421,
  0.1458, 0.1496, 0.1535, 0.1575, 0.1617, 0.1659, 0.1703, 0.1748, 0.1794,
  0.1842, 0.1890, 0.1940, 0.1993, 0.2048, 0.2105, 0.2165, 0.2227, 0.2292,
  0.2359, 0.2428, 0.2500, 0.2578, 0.2664, 0.2760, 0.2866, 0.2980, 0.3143,
  0.3394, 0.3733, 0.4166, 0.5000, 0.5840, 0.6267, 0.6606, 0.6857, 0.7020,
  0.7134, 0.7240, 0.7336, 0.7422, 0.7500, 0.7572, 0.7641, 0.7708, 0.7773,
  0.7835, 0.7895, 0.7952, 0.8007, 0.8060, 0.8110, 0.8158, 0.8206, 0.8252,
  0.8297, 0.8341, 0.8383, 0.8425, 0.8465, 0.8504, 0.8543, 0.8579, 0.8615,
  0.8650, 0.8683, 0.8716, 0.8747, 0.8777, 0.8806, 0.8833, 0.8860, 0.8886,
  0.8911, 0.8936, 0.8960, 0.8984, 0.9007, 0.9030, 0.9052, 0.9074, 0.9095,
  0.9116, 0.9136, 0.9156, 0.9175, 0.9194, 0.9212, 0.9230, 0.9247, 0.9264,
  0.9280, 0.9296, 0.9312, 0.9327, 0.9343, 0.9358, 0.9373, 0.9388, 0.9403,
  0.9418, 0.9433, 0.9447, 0.9461, 0.9475, 0.9489, 0.9503, 0.9517, 0.9530,
  0.9544, 0.9557, 0.9570, 0.9583, 0.9596, 0.9609, 0.9621, 0.9634, 0.9646,
  0.9658, 0.9670, 0.9682, 0.9694, 0.9706, 0.9718, 0.9729, 0.9741, 0.9752,
  0.9764, 0.9775, 0.9786, 0.9797, 0.9808, 0.9818, 0.9829, 0.9839, 0.9850,
  0.9860, 0.9870, 0.9880, 0.9890, 0.9900, 0.9909, 0.9919, 0.9928, 0.9938,
  0.9947, 0.9956, 0.9965, 0.9974, 0.9983, 0.9991, 1.0000]

/-- `PROPORTION_TABLES`: official NRCS/SCS dimensionless cumulative
rainfall curves, in the source's insertion order. -/
def PROPORTION_TABLES : List (String × List ℚ) :=
  [("scs_type_i", scsTypeI), ("scs_type_ia", scsTypeIA),
   ("scs_type_ii", scsTypeII), ("scs_type_iii", scsTypeIII)]

/-- `BETA_PRESETS`: Beta(α, β) shapes for the remaining patterns. -/
def BETA_PRESETS : List (String × (ℝ × ℝ)) :=
  [("scs_type_i", (2.0, 5.0)), ("scs_type_ia", (2.0, 6.0)),
   ("scs_type_ii", (3.5, 6.0)), ("scs_type_iii", (5.0, 2.0)),
   ("huff_q1", (1.5, 5.0)), ("huff_q2", (2.0, 3.0)),
   ("huff_q3", (3.0, 2.0)), ("huff_q4", (5.0, 1.5)),
   ("user", (1.0, 1.0))]

/-- The output DataFrame of `build_storm`: one list per column, plus the
optional `timestamp` column.  Timestamps are minutes-since-`start` offsets
added to `start` (a `datetime` is modelled as a real number of minutes). -/
structure StormSeries where
  time_min : List ℝ
  intensity_in_hr : List ℝ
  volume_in : List ℝ
  cumulative_in : List ℝ
  timestamp : Option (List ℝ)

/-- The tail of `build_storm` after the incremental depths are chosen:
intensities (with the `n == 1` special case), cumulative sums, the time
grid and optional timestamps. -/
noncomputable def finishStorm (depth durationHr timestepMin : ℝ) (n : ℕ)
    (start : Option ℝ) (incremental : List ℝ) : StormSeries :=
  { time_min := (List.range n).map fun i : ℕ => (i : ℝ) * timestepMin
    intensity_in_hr := if n = 1 then [depth / max durationHr 1e-12]
                       else incremental.map (· / (timestepMin / 60))
    volume_in := incremental
    cumulative_in := cumsum incremental
    timestamp := start.map fun t0 =>
      ((List.range n).map fun i : ℕ => (i : ℝ) * timestepMin).map fun m => t0 + m }

/-- The temporal-pattern dispatch of `build_storm`: official table if the
name is registered there, else the `"user"` custom curve, else a Beta
preset, else an "Unknown distribution" error. -/
noncomputable def choosePattern (depth : ℝ) (n : ℕ) (distribution : String)
    (customCurve : Option (List (ℝ × ℝ))) : Except String (List ℝ) :=
  match (PROPORTION_TABLES.map fun p => (p.1, p.2.map (Rat.cast : ℚ → ℝ))).lookup distribution with
  | some tbl => stormFromTable depth n tbl
  | none =>
    if distribution = "user" then
      match customCurve with
      | none => .error "Custom curve path required for 'user' distribution"
      | some rows => (userPdf n rows).map fun pdf => pdf.map (fun p => depth * p)
    else
      match BETA_PRESETS.lookup distribution with
      | none => .error ("Unknown distribution: " ++ distribution)
      | some ab => .ok ((betaPdf n ab.1 ab.2).map fun p => depth * p)

/-- `build_storm`.  The `peak` argument is accepted (for backward
compatibility, as in the source) and never read. -/
noncomputable def buildStorm (depth durationHr timestepMin : ℝ) (distribution : String)
    (peak : Option ℝ) (customCurve : Option (List (ℝ × ℝ))) (start : Option ℝ) :
    Except String StormSeries :=
  if durationHr ≤ 0 ∨ timestepMin ≤ 0 then .error "Duration and timestep must be positive"
  else
    let n : ℕ := max 1 (Int.toNat ⌈durationHr * 60 / timestepMin⌉)
    (choosePattern depth n distribution customCurve).map
      (finishStorm depth durationHr timestepMin n start)

/-! ## Basic facts about the list primitives -/

theorem monoND_iff : ∀ l : List K, monoND l = true ↔ List.Chain' (· ≤ ·) l
  | [] => by simp [monoND]
  | [a] => by simp [monoND]
  | a :: b :: t => by
      rw [monoND, List.chain'_cons, ← monoND_iff (b :: t)]
      simp

theorem diffs_length : ∀ l : List K, (diffs l).length = l.length - 1
  | [] => rfl
  | [a] => rfl
  | a :: b :: t => by simp [diffs, diffs_length (b :: t)]

theorem diffs_nonneg : ∀ l : List K, List.Chain' (· ≤ ·) l → ∀ v ∈ diffs l, 0 ≤ v
  | [], _, v, hv => by simp [diffs] at hv
  | [a], _, v, hv => by simp [diffs] at hv
  | a :: b :: t, hc, v, hv => by
      rw [List.chain'_cons] at hc
      rw [diffs, List.mem_cons] at hv
      rcases hv with hv | hv
      · rw [hv]
        exact sub_nonneg.mpr hc.1
      · exact diffs_nonneg (b :: t) hc.2 v hv

theorem cumsumFrom_length : ∀ (l : List K) (acc : K), (cumsumFrom acc l).length = l.length
  | [], _ => rfl
  | x :: t, acc => by simp [cumsumFrom, cumsumFrom_length t]

theorem cumsumFrom_chain' : ∀ (l : List K) (acc : K), (∀ v ∈ l, 0 ≤ v) →
    List.Chain' (· ≤ ·) (cumsumFrom acc l)
  | [], _, _ => List.chain'_nil
  | x :: t, acc, h => by
      rw [cumsumFrom, List.chain'_cons']
      refine ⟨fun b hb => ?_, cumsumFrom_chain' t (acc + x) fun v hv => h v (by simp [hv])⟩
      cases t with
      | nil => simp [cumsumFrom] at hb
      | cons y t' =>
          simp only [cumsumFrom, List.head?_cons, Option.mem_def, Option.some.injEq] at hb
          have hy : 0 ≤ y := h y (by simp)
          linarith [hb]

theorem cumsumFrom_getLastD : ∀ (l : List K) (acc d : K), l ≠ [] →
    (cumsumFrom acc l).getLastD d = acc + l.sum
  | [], _, _, h => absurd rfl h
  | [x], acc, d, _ => by simp [cumsumFrom]
  | x :: y :: t, acc, d, _ => by
      have htail : cumsumFrom acc (x :: y :: t) = (acc + x) :: cumsumFrom (acc + x) (y :: t) := rfl
      rw [htail, List.getLastD_cons, cumsumFrom_getLastD (y :: t) (acc + x) _ (by simp)]
      simp [add_assoc]

theorem cumsum_length (l : List K) : (cumsum l).length = l.length := cumsumFrom_length l 0

theorem cumsum_chain' (l : List K) (h : ∀ v ∈ l, 0 ≤ v) : List.Chain' (· ≤ ·) (cumsum l) :=
  cumsumFrom_chain' l 0 h

theorem cumsum_getLastD (l : List K) (d : K) (h : l ≠ []) : (cumsum l).getLastD d = l.sum := by
  rw [cumsum, cumsumFrom_getLastD l 0 d h, zero_add]

theorem sum_map_div_mul (l : List K) (s d : K) :
    (l.map fun v => v / s * d).sum = l.sum / s * d := by
  induction l with
  | nil => simp
  | cons a t ih => simp [ih, add_div, add_mul]

theorem sum_map_div (l : List K) (s : K) : (l.map (· / s)).sum = l.sum / s := by
  induction l with
  | nil => simp
  | cons a t ih => simp [ih, add_div]

theorem sum_map_mul_left (l : List K) (d : K) :
    (l.map fun p => d * p).sum = d * l.sum := by
  induction l with
  | nil => simp
  | cons a t ih => simp [ih, mul_add]

theorem sum_replicate_eq (n : ℕ) (x : K) : (List.replicate n x).sum = n * x := by
  rw [List.sum_replicate, nsmul_eq_mul]

theorem linspace_length (a b : K) (m : ℕ) : (linspace a b m).length = m := by
  simp [linspace]

theorem getLastD_map_range {α : Type} (f : ℕ → α) (m : ℕ) (h : 1 ≤ m) (d : α) :
    ((List.range m).map f).getLastD d = f (m - 1) := by
  obtain ⟨k, rfl⟩ := Nat.exists_eq_add_of_le h
  rw [Nat.add_comm, List.range_succ, List.map_append]
  simp

theorem headD_map_range {α : Type} (f : ℕ → α) (m : ℕ) (h : 1 ≤ m) (d : α) :
    ((List.range m).map f).headD d = f 0 := by
  obtain ⟨k, rfl⟩ := Nat.exists_eq_add_of_le h
  rw [Nat.add_comm, List.range_succ_eq_map]
  simp

theorem linspace_headD (a b : K) (m : ℕ) (h : 1 ≤ m) : (linspace a b m).headD 0 = a := by
  rw [linspace, headD_map_range _ _ h]
  simp

theorem linspace_getLastD (a b : K) (m : ℕ) (h : 2 ≤ m) : (linspace a b m).getLastD 0 = b := by
  rw [linspace, getLastD_map_range _ _ (by omega)]
  have hm : ((m - 1 : ℕ) : K) ≠ 0 := by
    have h1 : 0 < m - 1 := by omega
    exact (Nat.cast_pos.mpr h1).ne'
  rw [mul_div_assoc, div_self hm, mul_one]
  ring

theorem linspace_chain' (a b : K) (m : ℕ) (h : a < b) :
    List.Chain' (· < ·) (linspace a b m) := by
  rw [linspace, List.chain'_map]
  cases m with
  | zero => simp
  | succ k =>
      rw [List.chain'_range_succ]
      intro i hi
      have hk : (0 : K) < ((k + 1 - 1 : ℕ) : K) := by
        have h0 : 0 < k + 1 - 1 := by omega
        exact_mod_cast Nat.cast_pos.mpr h0
      have hba : (0 : K) < b - a := sub_pos.mpr h
      have hii : ((i : K)) < ((i + 1 : ℕ) : K) := by exact_mod_cast Nat.lt_succ_self i
      have hnum : (b - a) * (i : K) < (b - a) * ((i + 1 : ℕ) : K) :=
        mul_lt_mul_of_pos_left hii hba
      have := div_lt_div_of_pos_right hnum hk
      exact add_lt_add_left this a

/-! ## Interpolation lemmas -/

theorem getLastD_irrel {α : Type} : ∀ (l : List α) (d d' : α), l ≠ [] →
    l.getLastD d = l.getLastD d'
  | [], _, _, h => absurd rfl h
  | [a], _, _, _ => rfl
  | a :: b :: t, d, d', _ => by
      rw [List.getLastD_cons, List.getLastD_cons d' a,
        getLastD_irrel (b :: t) a a (by simp)]

theorem chainLt_lt_getLastD : ∀ (l : List K) (a : K),
    List.Chain' (· < ·) (a :: l) → l ≠ [] → a < l.getLastD 0
  | [], _, _, h => absurd rfl h
  | [b], a, hc, _ => by
      rw [List.chain'_cons] at hc
      simpa using hc.1
  | b :: c :: t, a, hc, _ => by
      rw [List.chain'_cons] at hc
      have hb := chainLt_lt_getLastD (c :: t) b hc.2 (by simp)
      rw [List.getLastD_cons, getLastD_irrel (c :: t) b 0 (by simp)]
      exact hc.1.trans hb

theorem head_le_interpolate : ∀ (xs ys : List K), List.Chain' (· < ·) xs →
    List.Chain' (· ≤ ·) ys → xs.length = ys.length → ys ≠ [] →
    ∀ x : K, ys.headD 0 ≤ interpolate x xs ys
  | [], ys, _, _, hl, hne, _ => by
      have hys : ys = [] := List.length_eq_zero.mp (by simpa using hl.symm)
      exact absurd hys hne
  | [x1], y1 :: yt, _, _, hl, _, x => by
      have : yt = [] := by simpa using hl
      subst this
      simp [interpolate]
  | x1 :: x2 :: xt, y1 :: ys', hcx, hcy, hl, _, x => by
      cases ys' with
      | nil => simp at hl
      | cons y2 yt =>
          rw [List.chain'_cons] at hcx hcy
          simp only [interpolate, List.headD_cons]
          split
          · exact le_refl _
          · rename_i hx1
            split
            · rename_i hx2
              have h21 : (0 : K) < x2 - x1 := sub_pos.mpr hcx.1
              have hxx1 : (0 : K) ≤ x - x1 := le_of_lt (sub_pos.mpr (lt_of_not_le hx1))
              have hyy : (0 : K) ≤ y2 - y1 := sub_nonneg.mpr hcy.1
              have : (0 : K) ≤ (y2 - y1) * (x - x1) / (x2 - x1) :=
                div_nonneg (mul_nonneg hyy hxx1) (le_of_lt h21)
              linarith
            · have ih := head_le_interpolate (x2 :: xt) (y2 :: yt) hcx.2 hcy.2
                (by simpa using hl) (by simp) x
              rw [List.headD_cons] at ih
              exact hcy.1.trans ih

theorem interpolate_mono : ∀ (xs ys : List K), List.Chain' (· < ·) xs →
    List.Chain' (· ≤ ·) ys → xs.length = ys.length →
    ∀ x y : K, x ≤ y → interpolate x xs ys ≤ interpolate y xs ys
  | [], ys, _, _, _, _, _, _ => le_refl _
  | [x1], y1 :: yt, _, _, hl, x, y, _ => by
      have : yt = [] := by simpa using hl
      subst this
      simp [interpolate]
  | [x1], [], _, _, hl, x, y, _ => by simp at hl
  | x1 :: x2 :: xt, [], _, _, hl, x, y, _ => by simp at hl
  | x1 :: x2 :: xt, [y1], _, _, hl, x, y, _ => by simp at hl
  | x1 :: x2 :: xt, y1 :: y2 :: yt, hcx, hcy, hl, x, y, hxy => by
      rw [List.chain'_cons] at hcx hcy
      have h21 : (0 : K) < x2 - x1 := sub_pos.mpr hcx.1
      have hyy : (0 : K) ≤ y2 - y1 := sub_nonneg.mpr hcy.1
      have hlen : (x2 :: xt).length = (y2 :: yt).length := by simpa using hl
      simp only [interpolate]
      by_cases hx1 : x ≤ x1
      · rw [if_pos hx1]
        have hbound := head_le_interpolate (x1 :: x2 :: xt) (y1 :: y2 :: yt)
          (List.chain'_cons.mpr hcx) (List.chain'_cons.mpr hcy) hl (by simp) y
        rw [List.headD_cons] at hbound
        simpa only [interpolate] using hbound
      · rw [if_neg hx1]
        have hy1 : ¬ y ≤ x1 := fun hy => hx1 (hxy.trans hy)
        rw [if_neg hy1]
        by_cases hx2 : x ≤ x2
        · rw [if_pos hx2]
          by_cases hy2 : y ≤ x2
          · rw [if_pos hy2]
            have hnum : (y2 - y1) * (x - x1) ≤ (y2 - y1) * (y - x1) :=
              mul_le_mul_of_nonneg_left (sub_le_sub_right hxy x1) hyy
            have hdiv := (div_le_div_right h21).mpr hnum
            linarith
          · rw [if_neg hy2]
            have hup : y1 + (y2 - y1) * (x - x1) / (x2 - x1) ≤ y2 := by
              have hfrac : (x - x1) / (x2 - x1) ≤ 1 :=
                (div_le_one h21).mpr (sub_le_sub_right hx2 x1)
              have : (y2 - y1) * ((x - x1) / (x2 - x1)) ≤ (y2 - y1) * 1 :=
                mul_le_mul_of_nonneg_left hfrac hyy
              rw [mul_div_assoc]
              linarith
            have hlow := head_le_interpolate (x2 :: xt) (y2 :: yt) hcx.2 hcy.2 hlen (by simp) y
            rw [List.headD_cons] at hlow
            exact hup.trans hlow
        · rw [if_neg hx2]
          have hy2 : ¬ y ≤ x2 := fun hy => hx2 (hxy.trans hy)
          rw [if_neg hy2]
          exact interpolate_mono (x2 :: xt) (y2 :: yt) hcx.2 hcy.2 hlen x y hxy

theorem interpolate_at_headD : ∀ (xs ys : List K) (x : K), xs ≠ [] →
    xs.length = ys.length → x ≤ xs.headD 0 → interpolate x xs ys = ys.headD 0
  | [], _, _, hne, _, _ => absurd rfl hne
  | [x1], ys, x, _, hl, _ => by
      match ys, hl with
      | [y1], _ => simp [interpolate]
  | x1 :: x2 :: xt, ys, x, _, hl, hx => by
      match ys, hl with
      | y1 :: y2 :: yt, _ =>
          rw [List.headD_cons] at hx
          simp only [interpolate, List.headD_cons, if_pos hx]

theorem interpolate_at_last : ∀ (xs ys : List K), List.Chain' (· < ·) xs →
    xs.length = ys.length → ∀ x : K, xs ≠ [] → xs.getLastD 0 ≤ x →
    interpolate x xs ys = ys.getLastD 0
  | [], _, _, _, _, hne, _ => absurd rfl hne
  | [x1], ys, _, hl, x, _, _ => by
      match ys, hl with
      | [y1], _ => simp [interpolate]
  | x1 :: x2 :: xt, ys, hcx, hl, x, _, hx => by
      match ys, hl with
      | y1 :: y2 :: yt, hl =>
          rw [List.chain'_cons] at hcx
          have hlast : (x1 :: x2 :: xt).getLastD 0 = (x2 :: xt).getLastD 0 := by
            rw [List.getLastD_cons, getLastD_irrel (x2 :: xt) x1 0 (by simp)]
          rw [hlast] at hx
          have hx1lt : x1 < (x2 :: xt).getLastD 0 :=
            chainLt_lt_getLastD (x2 :: xt) x1 (List.chain'_cons.mpr hcx) (by simp)
          have hnx1 : ¬ x ≤ x1 := fun hc => absurd (hc.trans_lt hx1lt) (not_lt.mpr hx)
          have hys : (y1 :: y2 :: yt).getLastD 0 = (y2 :: yt).getLastD 0 := by
            rw [List.getLastD_cons, getLastD_irrel (y2 :: yt) y1 0 (by simp)]
          rw [hys]
          simp only [interpolate, if_neg hnx1]
          cases xt with
          | nil =>
              have hyt : yt = [] := by simpa using hl
              subst hyt
              have hlast2 : (x2 :: ([] : List K)).getLastD 0 = x2 := rfl
              rw [hlast2] at hx
              by_cases hx2 : x ≤ x2
              · rw [if_pos hx2]
                have hxx2 : x = x2 := le_antisymm hx2 hx
                subst hxx2
                have hne : x - x1 ≠ 0 := sub_ne_zero.mpr (ne_of_gt (lt_of_not_le hnx1))
                rw [mul_div_assoc, div_self hne, mul_one]
                simp
              · rw [if_neg hx2]
                simp [interpolate]
          | cons x3 xt' =>
              have hlen : (x2 :: x3 :: xt').length = (y2 :: yt).length := by simpa using hl
              by_cases hx2 : x ≤ x2
              · exfalso
                have h23 : x2 < (x3 :: xt').getLastD 0 :=
                  chainLt_lt_getLastD (x3 :: xt') x2 hcx.2 (by simp)
                have : (x2 :: x3 :: xt').getLastD 0 = (x3 :: xt').getLastD 0 := by
                  rw [List.getLastD_cons, getLastD_irrel (x3 :: xt') x2 0 (by simp)]
                rw [this] at hx
                exact absurd (hx2.trans_lt h23) (not_lt.mpr hx)
              · rw [if_neg hx2]
                exact interpolate_at_last (x2 :: x3 :: xt') (y2 :: yt) hcx.2 hlen x (by simp) hx

/-! ## Properties of the table resampler -/

theorem resampleIncrements_length (table : List K) (n : ℕ) :
    (resampleIncrements table n).length = n := by
  simp only [resampleIncrements]
  rw [diffs_length, List.length_map, linspace_length]
  omega

theorem resampleIncrements_of_last_one (table : List K) (n : ℕ)
    (hlast : table.getLastD 0 = 1) :
    resampleIncrements table n =
      diffs ((linspace 0 1 (n + 1)).map fun g =>
        interpolate g (linspace 0 1 table.length) table) := by
  simp only [resampleIncrements, hlast, one_ne_zero, if_false, div_one, List.map_id']

theorem resampleIncrements_nonneg (table : List K) (n : ℕ)
    (hm : List.Chain' (· ≤ ·) table) (hlast : table.getLastD 0 = 1) :
    ∀ v ∈ resampleIncrements table n, 0 ≤ v := by
  intro v hv
  rw [resampleIncrements_of_last_one table n hlast] at hv
  refine diffs_nonneg _ ?_ v hv
  rw [List.chain'_map]
  refine (linspace_chain' (0 : K) 1 (n + 1) zero_lt_one).imp ?_
  intro g1 g2 h12
  exact interpolate_mono (linspace 0 1 table.length) table
    (linspace_chain' 0 1 table.length zero_lt_one) hm
    (linspace_length 0 1 table.length) g1 g2 h12.le

theorem stormFromTable_isOk (depth : K) (n : ℕ) (table : List K)
    (h2 : 2 ≤ table.length) (hm : monoND table = true) :
    ∃ inc, stormFromTable depth n table = .ok inc := by
  rw [stormFromTable, if_neg (by omega), if_neg (by rw [hm]; simp)]
  split
  · exact ⟨_, rfl⟩
  · exact ⟨_, rfl⟩

theorem stormFromTable_ok_sum (depth : K) (n : ℕ) (table : List K) (inc : List K)
    (h : stormFromTable depth n table = .ok inc) (hn : 1 ≤ n) :
    inc.sum = depth ∧ inc.length = n := by
  rw [stormFromTable] at h
  split at h
  · simp at h
  · split at h
    · simp at h
    · split at h
      · have hinc : inc = List.replicate n (depth / ((max n 1 : ℕ) : K)) :=
          (Except.ok.inj h).symm
        have hmax : max n 1 = n := Nat.max_eq_left hn
        have hK : ((n : K)) ≠ 0 := Nat.cast_ne_zero.mpr (by omega)
        constructor
        · rw [hinc, sum_replicate_eq, hmax, mul_comm, div_mul_cancel₀ depth hK]
        · rw [hinc, List.length_replicate]
      · have hinc : inc = (resampleIncrements table n).map
            (fun v => v / (resampleIncrements table n).sum * depth) :=
          (Except.ok.inj h).symm
        rename_i hs
        have hspos : (0 : K) < (resampleIncrements table n).sum := lt_of_not_le hs
        constructor
        · rw [hinc, sum_map_div_mul, div_self hspos.ne', one_mul]
        · rw [hinc, List.length_map, resampleIncrements_length]

theorem stormFromTable_spec (depth : K) (n : ℕ) (table : List K)
    (h2 : 2 ≤ table.length) (hm : List.Chain' (· ≤ ·) table)
    (hlast : table.getLastD 0 = 1) (hn : 1 ≤ n) (hd : 0 ≤ depth) :
    ∃ inc, stormFromTable depth n table = .ok inc ∧ inc.length = n ∧
      inc.sum = depth ∧ ∀ v ∈ inc, 0 ≤ v := by
  obtain ⟨inc, hok⟩ := stormFromTable_isOk depth n table h2 ((monoND_iff table).mpr hm)
  obtain ⟨hsum, hlen⟩ := stormFromTable_ok_sum _ _ _ _ hok hn
  refine ⟨inc, hok, hlen, hsum, ?_⟩
  rw [stormFromTable, if_neg (by omega),
    if_neg (by rw [(monoND_iff table).mpr hm]; simp)] at hok
  split at hok
  · have hinc : inc = List.replicate n (depth / ((max n 1 : ℕ) : K)) :=
      (Except.ok.inj hok).symm
    intro v hv
    rw [hinc] at hv
    rw [List.eq_of_mem_replicate hv]
    exact div_nonneg hd (Nat.cast_nonneg _)
  · have hinc : inc = (resampleIncrements table n).map
        (fun v => v / (resampleIncrements table n).sum * depth) :=
      (Except.ok.inj hok).symm
    rename_i hs
    have hspos : (0 : K) < (resampleIncrements table n).sum := lt_of_not_le hs
    intro v hv
    rw [hinc, List.mem_map] at hv
    obtain ⟨w, hw, rfl⟩ := hv
    exact mul_nonneg (div_nonneg (resampleIncrements_nonneg table n hm hlast w hw)
      hspos.le) hd

/-! ## Properties of the custom-curve loader -/

theorem userIncrements_length (t c : List K) (n : ℕ) : (userIncrements t c n).length = n := by
  rw [userIncrements, diffs_length, List.length_map, linspace_length]
  omega

theorem userPdf_ok_of_ne_nil (n : ℕ) (rows : List (K × K)) (hne : rows ≠ []) :
    ∃ p, userPdf n rows = .ok p := by
  rw [userPdf, if_neg (by simpa using hne)]
  split
  · exact ⟨_, rfl⟩
  · exact ⟨_, rfl⟩

theorem userPdf_error_of_nil (n : ℕ) : userPdf (K := K) n [] ≠ .ok p := by
  rw [userPdf]
  simp

theorem userPdf_sum (n : ℕ) (rows : List (K × K)) (p : List K)
    (h : userPdf n rows = .ok p) (hn : 1 ≤ n) : p.sum = 1 ∧ p.length = n := by
  rw [userPdf] at h
  split at h
  · simp at h
  · split at h
    · have hp : p = List.replicate n (1 / (n : K)) := (Except.ok.inj h).symm
      have hK : ((n : K)) ≠ 0 := Nat.cast_ne_zero.mpr (by omega)
      constructor
      · rw [hp, sum_replicate_eq, mul_one_div, div_self hK]
      · rw [hp, List.length_replicate]
    · rename_i hs
      have hspos := lt_of_not_le hs
      have hp : p = (userIncrements (normalizeCol (rows.map Prod.fst))
          (normalizeCol (rows.map Prod.snd)) n).map
          (· / (userIncrements (normalizeCol (rows.map Prod.fst))
            (normalizeCol (rows.map Prod.snd)) n).sum) := (Except.ok.inj h).symm
      constructor
      · rw [hp, sum_map_div, div_self hspos.ne']
      · rw [hp, List.length_map, userIncrements_length]

/-! ## Properties of the Beta shaper -/

theorem midBinPoints_length (n : ℕ) : (midBinPoints n).length = n := by
  simp [midBinPoints]

theorem midBinPoints_mem_Ioo (n : ℕ) (hn : 0 < n) :
    ∀ x ∈ midBinPoints n, 0 < x ∧ x < 1 := by
  intro x hx
  rw [midBinPoints, List.mem_map] at hx
  obtain ⟨i, hi, rfl⟩ := hx
  rw [List.mem_range] at hi
  have hnR : (0 : ℝ) < n := Nat.cast_pos.mpr hn
  constructor
  · have h1 : (0 : ℝ) ≤ (i : ℝ) / n := div_nonneg (Nat.cast_nonneg i) hnR.le
    have h2 : (0 : ℝ) < 0.5 / n := div_pos (by norm_num) hnR
    linarith
  · rw [div_add_div_same, div_lt_one hnR]
    have : (i : ℝ) ≤ (n : ℝ) - 1 := by
      have : (i : ℝ) + 1 ≤ n := by exact_mod_cast Nat.succ_le_of_lt hi
      linarith
    norm_num
    linarith

theorem betaRaw_length (n : ℕ) (a b : ℝ) : (betaRaw n a b).length = n := by
  rw [betaRaw, List.length_map, midBinPoints_length]

theorem betaRaw_pos (n : ℕ) (a b : ℝ) : ∀ v ∈ betaRaw n a b, 0 < v := by
  intro v hv
  rw [betaRaw, List.mem_map] at hv
  obtain ⟨x, _, rfl⟩ := hv
  exact Real.exp_pos _

theorem betaRaw_sum_pos (n : ℕ) (a b : ℝ) (hn : 1 ≤ n) : 0 < (betaRaw n a b).sum := by
  refine List.sum_pos _ (betaRaw_pos n a b) ?_
  have := betaRaw_length n a b
  intro hnil
  rw [hnil] at this
  simp at this
  omega

theorem betaPdf_sum (n : ℕ) (a b : ℝ) (hn : 1 ≤ n) : (betaPdf n a b).sum = 1 := by
  rw [betaPdf, if_neg (not_le.mpr (betaRaw_sum_pos n a b hn)), sum_map_div,
    div_self (betaRaw_sum_pos n a b hn).ne']

theorem betaPdf_length (n : ℕ) (a b : ℝ) : (betaPdf n a b).length = n := by
  rw [betaPdf]
  split
  · rw [List.length_replicate]
  · rw [List.length_map, betaRaw_length]

theorem betaPdf_one_one (n : ℕ) : betaPdf n 1 1 = List.replicate n (1 / (n : ℝ)) := by
  have hraw : betaRaw n 1 1 = List.replicate n 1 := by
    have : (midBinPoints n).map (fun x =>
        Real.exp ((1 - 1) * Real.log (clip x 1e-12 1) +
          (1 - 1) * Real.log (clip (1 - x) 1e-12 1))) =
        (midBinPoints n).map (fun _ => (1 : ℝ)) := by
      refine List.map_congr_left ?_
      intro x _
      rw [sub_self, zero_mul, zero_mul, add_zero, Real.exp_zero]
    rw [betaRaw, this, List.map_const', midBinPoints_length]
  cases Nat.eq_zero_or_pos n with
  | inl h0 =>
      subst h0
      rw [betaPdf]
      simp [hraw]
  | inr hpos =>
      have hsum : (betaRaw n 1 1).sum = (n : ℝ) := by
        rw [hraw, sum_replicate_eq, mul_one]
      have hne : ¬ (betaRaw n 1 1).sum ≤ 0 := by
        rw [hsum]
        exact not_le.mpr (Nat.cast_pos.mpr hpos)
      rw [betaPdf, if_neg hne, hraw, sum_replicate_eq, mul_one, List.map_replicate]

theorem betaPdf_single (a b : ℝ) : betaPdf 1 a b = [1] := by
  have h1 : (1 : ℕ) ≤ 1 := le_refl 1
  have hlen := betaPdf_length 1 a b
  have hsum := betaPdf_sum 1 a b h1
  match hh : betaPdf 1 a b with
  | [v] =>
      rw [hh] at hsum
      simp at hsum
      rw [hsum]
  | [] => rw [hh] at hlen; simp at hlen
  | v :: w :: t => rw [hh] at hlen; simp at hlen

/-! ## Structural lemmas about `build_storm` -/

theorem exceptMap_eq_ok {ε α β : Type} (f : α → β) (e : Except ε α) (b : β) :
    e.map f = .ok b ↔ ∃ a, e = .ok a ∧ b = f a := by
  cases e with
  | error err => simp [Except.map]
  | ok a => simp [Except.map, eq_comm]

theorem lookup_map_snd {β γ : Type} (f : β → γ) (l : List (String × β)) (k : String) :
    (l.map (fun p => (p.1, f p.2))).lookup k = (l.lookup k).map f := by
  induction l with
  | nil => rfl
  | cons p t ih =>
      obtain ⟨k', v⟩ := p
      cases hk : k == k' <;> simp [List.lookup, hk, ih]

theorem chain'_le_cast (l : List ℚ) (h : List.Chain' (· ≤ ·) l) :
    List.Chain' (· ≤ ·) (l.map (fun q : ℚ => (q : ℝ))) := by
  rw [List.chain'_map]
  exact h.imp fun a b hab => Rat.cast_le.mpr hab

theorem getLastD_map_cast (l : List ℚ) :
    (l.map (fun q : ℚ => (q : ℝ))).getLastD 0 = ((l.getLastD 0 : ℚ) : ℝ) := by
  induction l with
  | nil => simp
  | cons a t ih =>
      cases t with
      | nil => simp
      | cons b t' =>
          rw [List.map_cons, List.getLastD_cons, List.getLastD_cons,
            getLastD_irrel _ ((a : ℝ)) 0 (by simp), getLastD_irrel _ a 0 (by simp)]
          exact ih

set_option maxRecDepth 100000 in
/-- All four registered dimensionless tables are well-formed: at least two
values, non-decreasing, and ending at exactly 1. -/
theorem tables_valid : ∀ p ∈ PROPORTION_TABLES,
    2 ≤ p.2.length ∧ monoND p.2 = true ∧ p.2.getLastD 0 = 1 := by decide

theorem choosePattern_ok_sum (depth : ℝ) (n : ℕ) (dist : String)
    (cc : Option (List (ℝ × ℝ))) (inc : List ℝ)
    (h : choosePattern depth n dist cc = .ok inc) (hn : 1 ≤ n) :
    inc.sum = depth ∧ inc.length = n := by
  rw [choosePattern.eq_def] at h
  split at h
  · exact stormFromTable_ok_sum depth n _ inc h hn
  · split at h
    · split at h
      · simp at h
      · rw [exceptMap_eq_ok] at h
        obtain ⟨pdf, hpdf, rfl⟩ := h
        obtain ⟨hsum, hlen⟩ := userPdf_sum n _ pdf hpdf hn
        constructor
        · rw [sum_map_mul_left, hsum, mul_one]
        · rw [List.length_map, hlen]
    · split at h
      · simp at h
      · rename_i ab hab
        have hinc : inc = (betaPdf n ab.1 ab.2).map fun p => depth * p := (Except.ok.inj h).symm
        constructor
        · rw [hinc, sum_map_mul_left, betaPdf_sum n ab.1 ab.2 hn, mul_one]
        · rw [hinc, List.length_map, betaPdf_length]

theorem buildStorm_eq_ok_iff (depth durationHr timestepMin : ℝ) (dist : String)
    (pk : Option ℝ) (cc : Option (List (ℝ × ℝ))) (st : Option ℝ) (s : StormSeries) :
    buildStorm depth durationHr timestepMin dist pk cc st = .ok s ↔
      (0 < durationHr ∧ 0 < timestepMin) ∧
      ∃ inc, choosePattern depth (max 1 (Int.toNat ⌈durationHr * 60 / timestepMin⌉)) dist cc
          = .ok inc ∧
        s = finishStorm depth durationHr timestepMin
          (max 1 (Int.toNat ⌈durationHr * 60 / timestepMin⌉)) st inc := by
  rw [buildStorm]
  split
  · rename_i hbad
    constructor
    · intro h
      exact absurd h (by simp)
    · rintro ⟨⟨h1, h2⟩, -⟩
      rcases hbad with hb | hb
      · exact absurd h1 (not_lt.mpr hb)
      · exact absurd h2 (not_lt.mpr hb)
  · rename_i hgood
    push_neg at hgood
    rw [exceptMap_eq_ok]
    constructor
    · rintro ⟨inc, hinc, heq⟩
      exact ⟨⟨hgood.1, hgood.2⟩, inc, hinc, heq⟩
    · rintro ⟨-, inc, hinc, heq⟩
      exact ⟨inc, hinc, heq⟩

theorem exceptMap_isOk {ε α β : Type} (f : α → β) (e : Except ε α) :
    (e.map f).isOk = e.isOk := by
  cases e <;> rfl

theorem mem_of_lookup_eq_some {β : Type} {l : List (String × β)} {k : String} {b : β}
    (h : l.lookup k = some b) : (k, b) ∈ l := by
  rw [List.lookup_eq_some_iff] at h
  obtain ⟨l₁, l₂, rfl, -⟩ := h
  simp

theorem userPdf_isOk_iff (n : ℕ) (rows : List (K × K)) :
    (userPdf n rows).isOk = true ↔ rows ≠ [] := by
  cases rows with
  | nil => simp [userPdf, Except.isOk, Except.toBool]
  | cons r t =>
      rw [userPdf, if_neg (by simp)]
      constructor
      · intro _
        simp
      · intro _
        split <;> rfl

theorem choosePattern_isOk_iff (depth : ℝ) (n : ℕ) (dist : String)
    (cc : Option (List (ℝ × ℝ))) :
    (choosePattern depth n dist cc).isOk = true ↔
      ((PROPORTION_TABLES.lookup dist).isSome ∨
        (dist = "user" ∧ ∃ rows, cc = some rows ∧ rows ≠ []) ∨
        (dist ≠ "user" ∧ (BETA_PRESETS.lookup dist).isSome)) := by
  rw [choosePattern.eq_def]
  split
  · rename_i tbl hT
    rw [lookup_map_snd, Option.map_eq_some'] at hT
    obtain ⟨tbl0, hl0, rfl⟩ := hT
    obtain ⟨h2, hmono, -⟩ := tables_valid _ (mem_of_lookup_eq_some hl0)
    have hcast2 : 2 ≤ (tbl0.map (fun q : ℚ => (q : ℝ))).length := by
      rw [List.length_map]; exact h2
    have hcastm : monoND (tbl0.map (fun q : ℚ => (q : ℝ))) = true :=
      (monoND_iff _).mpr (chain'_le_cast tbl0 ((monoND_iff tbl0).mp hmono))
    obtain ⟨inc, hok⟩ := stormFromTable_isOk depth n _ hcast2 hcastm
    rw [hok]
    simp [Except.isOk, Except.toBool, hl0]
  · rename_i hT
    rw [lookup_map_snd, Option.map_eq_none'] at hT
    split
    · rename_i hu
      subst hu
      split
      · simp [Except.isOk, Except.toBool, hT]
      · rename_i rows
        rw [exceptMap_isOk, userPdf_isOk_iff]
        simp [hT]
    · rename_i hu
      split
      · rename_i hB
        simp [Except.isOk, Except.toBool, hT, hu, hB]
      · rename_i ab hB
        simp [Except.isOk, Except.toBool, hT, hu, hB]

/-! ## Facts about `arr.max()`, `np.argmax` and `np.roll` -/

theorem foldl_max_le : ∀ (t : List K) (a : K),
    a ≤ t.foldl max a ∧ ∀ x ∈ t, x ≤ t.foldl max a
  | [], a => ⟨le_refl a, by simp⟩
  | b :: t', a => by
      obtain ⟨h1, h2⟩ := foldl_max_le t' (max a b)
      refine ⟨le_trans (le_max_left a b) h1, ?_⟩
      intro x hx
      rw [List.mem_cons] at hx
      rcases hx with rfl | hx
      · exact le_trans (le_max_right a x) h1
      · exact h2 x hx

theorem foldl_max_mem : ∀ (t : List K) (a : K), t.foldl max a ∈ a :: t
  | [], a => by simp
  | b :: t', a => by
      have h := foldl_max_mem t' (max a b)
      rw [List.mem_cons] at h
      rcases h with h | h
      · rw [List.foldl_cons, h]
        rcases max_choice a b with h' | h' <;> rw [h'] <;> simp
      · rw [List.foldl_cons]
        exact List.mem_cons_of_mem _ (List.mem_cons_of_mem _ h)

theorem le_maxList (l : List K) : ∀ x ∈ l, x ≤ maxList l := by
  cases l with
  | nil => simp
  | cons a t =>
      intro x hx
      rw [List.mem_cons] at hx
      rcases hx with rfl | hx
      · exact (foldl_max_le t x).1
      · exact (foldl_max_le t a).2 x hx

theorem maxList_mem (l : List K) (h : l ≠ []) : maxList l ∈ l := by
  cases l with
  | nil => exact absurd rfl h
  | cons a t => exact foldl_max_mem t a

theorem rollRight_zero (l : List α) : rollRight l 0 = l := by
  rw [rollRight]
  split
  · rfl
  · rename_i h
    rw [Nat.zero_mod, Nat.sub_zero, List.drop_length, List.take_length, List.nil_append]

theorem rollRight_mem (l : List α) (k : ℕ) : ∀ x ∈ rollRight l k, x ∈ l := by
  intro x hx
  rw [rollRight] at hx
  split at hx
  · exact hx
  · rw [List.mem_append] at hx
    rcases hx with hx | hx
    · exact List.mem_of_mem_drop hx
    · exact List.mem_of_mem_take hx

theorem rollRight_get? (l : List α) (k i : ℕ) (hk : k ≤ l.length) (hik : k ≤ i)
    (hil : i < l.length) : (rollRight l k).get? i = l.get? (i - k) := by
  rw [rollRight]
  have hlpos : l.length ≠ 0 := by omega
  rw [if_neg hlpos]
  rcases Nat.lt_or_ge k l.length with hklt | hkge
  · have hmod : k % l.length = k := Nat.mod_eq_of_lt hklt
    rw [hmod]
    have hdlen : (l.drop (l.length - k)).length = k := by
      rw [List.length_drop]
      omega
    rw [List.get?_append_right (by omega), hdlen, List.get?_take (by omega)]
  · have hkeq : k = l.length := le_antisymm hk hkge
    subst hkeq
    rw [Nat.mod_self, Nat.sub_zero, List.drop_length, List.take_length, List.nil_append]
    omega

theorem argmaxL_lt_length (l : List ℝ) (h : l ≠ []) : argmaxL l < l.length := by
  rw [argmaxL]
  exact List.indexOf_lt_length.mpr (maxList_mem l h)

theorem argmaxL_getD (l : List ℝ) (h : l ≠ []) : l.getD (argmaxL l) 0 = maxList l := by
  have hlt := argmaxL_lt_length l h
  rw [List.getD_eq_getElem l 0 hlt]
  exact List.getElem_indexOf hlt

theorem argmaxL_le (l : List ℝ) (h : l ≠ []) : ∀ x ∈ l, x ≤ l.getD (argmaxL l) 0 := by
  rw [argmaxL_getD l h]
  exact le_maxList l

theorem argmaxL_first (l : List ℝ) (h : l ≠ []) :
    ∀ j < argmaxL l, l.getD j 0 < l.getD (argmaxL l) 0 := by
  intro j hj
  have hjl : j < l.length := lt_trans hj (argmaxL_lt_length l h)
  have hne : l.getD j 0 ≠ maxList l := by
    have hj' : j < List.findIdx (· == maxList l) l := hj
    have hfind := List.not_of_lt_findIdx hj'
    rw [List.getD_eq_getElem l 0 hjl]
    simpa using hfind
  have hle : l.getD j 0 ≤ maxList l := by
    rw [List.getD_eq_getElem l 0 hjl]
    exact le_maxList l _ (List.getElem_mem _)
  rw [argmaxL_getD l h]
  exact lt_of_le_of_ne hle hne

/-! ## Remaining helpers for concrete witnesses -/

theorem isOk_exists {ε α : Type} (e : Except ε α) (h : e.isOk = true) : ∃ a, e = .ok a := by
  cases e with
  | error err => simp [Except.isOk, Except.toBool] at h
  | ok a => exact ⟨a, rfl⟩

theorem nBins_eq (dur ts : ℝ) (k : ℕ) (h : dur * 60 / ts = (k : ℝ)) :
    max 1 (Int.toNat ⌈dur * 60 / ts⌉) = max 1 k := by
  rw [h, ← Int.cast_natCast k, Int.ceil_intCast]
  simp

theorem eq_singleton_of_sum (l : List K) (d : K) (hlen : l.length = 1) (hsum : l.sum = d) :
    l = [d] := by
  match l, hlen with
  | [x], _ =>
      rw [List.sum_cons, List.sum_nil, add_zero] at hsum
      rw [hsum]

/-! ## The claims -/

/-- **C10** — the optional `peak` argument has no effect on the output of
`build_storm`: for any two values `p1`, `p2` of `peak` and otherwise
identical arguments the results are identical ( `peak` is accepted for
backward compatibility and never read on any dispatch path). -/
theorem claim_peak_no_effect (depth durationHr timestepMin : ℝ) (dist : String)
    (p1 p2 : Option ℝ) (cc : Option (List (ℝ × ℝ))) (st : Option ℝ) :
    buildStorm depth durationHr timestepMin dist p1 cc st =
      buildStorm depth durationHr timestepMin dist p2 cc st := rfl

/-- **C6** — Beta shape sampling and normalization: for `n ≥ 1` the
dimensionless Beta pattern samples the density at the mid-bin points
`x_i = (i + 0.5)/n`, which all lie strictly inside `(0, 1)` (never at the
domain boundary); the result is normalized to sum to 1; and with
`α = β = 1` every value is the uniform `1/n` — in particular all ten
values are `0.1` for `n = 10`. -/
theorem claim_beta_sampling_normalization (n : ℕ) (a b : ℝ) (hn : 0 < n) :
    (∀ x ∈ midBinPoints n, 0 < x ∧ x < 1) ∧
    (betaPdf n a b).sum = 1 ∧
    betaPdf n 1 1 = List.replicate n (1 / (n : ℝ)) :=
  ⟨midBinPoints_mem_Ioo n hn, betaPdf_sum n a b hn, betaPdf_one_one n⟩

/-- Witness for C6 at the concrete instance `α = β = 1`, `n = 10`:
all ten probabilities equal `1/10 = 0.1`. -/
theorem claim_beta_sampling_normalization_witness :
    betaPdf 10 1 1 = List.replicate 10 (1 / (10 : ℝ)) :=
  (claim_beta_sampling_normalization 10 1 1 (by norm_num)).2.2

/-- **C4** — bin count and time grid: every successful build has exactly
`n = max(1, ceil(duration_hr*60/timestep_min))` bins in every column, its
`time_min` column is `i * timestep_min` for `i = 0, …, n-1`, and when a
start time is supplied the timestamp column is `start + i * timestep_min`
minutes. -/
theorem claim_bin_count_time_grid (depth durationHr timestepMin : ℝ) (dist : String)
    (pk : Option ℝ) (cc : Option (List (ℝ × ℝ))) (st : Option ℝ) (s : StormSeries)
    (hok : buildStorm depth durationHr timestepMin dist pk cc st = .ok s) :
    s.time_min = (List.range (max 1 (Int.toNat ⌈durationHr * 60 / timestepMin⌉))).map
        (fun i : ℕ => (i : ℝ) * timestepMin) ∧
    s.time_min.length = max 1 (Int.toNat ⌈durationHr * 60 / timestepMin⌉) ∧
    s.volume_in.length = max 1 (Int.toNat ⌈durationHr * 60 / timestepMin⌉) ∧
    s.intensity_in_hr.length = max 1 (Int.toNat ⌈durationHr * 60 / timestepMin⌉) ∧
    s.cumulative_in.length = max 1 (Int.toNat ⌈durationHr * 60 / timestepMin⌉) ∧
    (∀ t0, st = some t0 → s.timestamp =
      some ((List.range (max 1 (Int.toNat ⌈durationHr * 60 / timestepMin⌉))).map
        (fun i : ℕ => t0 + (i : ℝ) * timestepMin))) := by
  rw [buildStorm_eq_ok_iff] at hok
  obtain ⟨-, inc, hinc, rfl⟩ := hok
  obtain ⟨-, hlen⟩ := choosePattern_ok_sum _ _ _ _ _ hinc (le_max_left 1 _)
  refine ⟨rfl, ?_, ?_, ?_, ?_, ?_⟩
  · rw [finishStorm]
    simp
  · exact hlen
  · rw [finishStorm]
    dsimp only
    split
    · rename_i h1
      rw [h1, List.length_singleton]
    · rw [List.length_map, hlen]
  · rw [finishStorm]
    dsimp only
    rw [cumsum_length, hlen]
  · intro t0 ht0
    rw [finishStorm]
    dsimp only
    rw [ht0, Option.map_some', List.map_map]
    rfl

/-- Witness for C4 at the concrete instance
`build_storm(depth=1, duration_hr=2, timestep_min=30, "huff_q2")`:
`n = 4` bins, with `time_min = [0, 30, 60, 90]`. -/
theorem claim_bin_count_time_grid_witness :
    (buildStorm 1 2 30 "huff_q2" none none none).map (fun s => s.time_min.length) = .ok 4 := by
  have hchoose : (choosePattern 1 (max 1 (Int.toNat ⌈(2 : ℝ) * 60 / 30⌉)) "huff_q2" none).isOk
      = true := by
    rw [choosePattern_isOk_iff]
    exact Or.inr (Or.inr ⟨by decide, by rw [(by rfl :
      BETA_PRESETS.lookup "huff_q2" = some (2.0, 3.0))]; rfl⟩)
  obtain ⟨inc, hinc⟩ := isOk_exists _ hchoose
  have hok : buildStorm 1 2 30 "huff_q2" none none none =
      .ok (finishStorm 1 2 30 (max 1 (Int.toNat ⌈(2 : ℝ) * 60 / 30⌉)) none inc) :=
    (buildStorm_eq_ok_iff 1 2 30 "huff_q2" none none none _).mpr
      ⟨⟨by norm_num, by norm_num⟩, inc, hinc, rfl⟩
  rw [hok, Except.map]
  have h4 := claim_bin_count_time_grid 1 2 30 "huff_q2" none none none _ hok
  rw [h4.2.1]
  rw [nBins_eq 2 30 4 (by norm_num)]
  rfl

/-- **C1** — depth conservation.  (a) Every successful build request (with
positive depth, duration and timestep) returns per-bin incremental depths
that sum to exactly the requested depth — exact equality in the real-number
model, hence within any relative tolerance, in particular `1e-9`.
(b) For every registered official dimensionless curve, resampling to any
`n ≥ 1` bins succeeds and yields a cumulative sequence (the running sum of
the increments) that is non-decreasing and whose final value equals
`depth`. -/
theorem claim_depth_conservation (depth durationHr timestepMin : ℝ) (dist : String)
    (pk : Option ℝ) (cc : Option (List (ℝ × ℝ))) (st : Option ℝ)
    (hd : 0 < depth) (h1 : 0 < durationHr) (h2 : 0 < timestepMin) :
    (∀ s, buildStorm depth durationHr timestepMin dist pk cc st = .ok s →
      s.volume_in.sum = depth) ∧
    (∀ nm tbl, (nm, tbl) ∈ PROPORTION_TABLES → ∀ n : ℕ, 1 ≤ n →
      ∃ inc, stormFromTable depth n (tbl.map fun q : ℚ => (q : ℝ)) = .ok inc ∧
        List.Chain' (· ≤ ·) (cumsum inc) ∧ (cumsum inc).getLastD 0 = depth) := by
  constructor
  · intro s hok
    rw [buildStorm_eq_ok_iff] at hok
    obtain ⟨-, inc, hinc, rfl⟩ := hok
    obtain ⟨hsum, -⟩ := choosePattern_ok_sum _ _ _ _ _ hinc (le_max_left 1 _)
    exact hsum
  · intro nm tbl hmem n hn
    obtain ⟨hlen2, hmono, hlast⟩ := tables_valid _ hmem
    have hc2 : 2 ≤ (tbl.map fun q : ℚ => (q : ℝ)).length := by
      rw [List.length_map]; exact hlen2
    have hcm : List.Chain' (· ≤ ·) (tbl.map fun q : ℚ => (q : ℝ)) :=
      chain'_le_cast tbl ((monoND_iff tbl).mp hmono)
    have hcl : (tbl.map fun q : ℚ => (q : ℝ)).getLastD 0 = 1 := by
      rw [getLastD_map_cast, hlast, Rat.cast_one]
    obtain ⟨inc, hok, hlen, hsum, hnn⟩ :=
      stormFromTable_spec depth n _ hc2 hcm hcl hn hd.le
    have hne : inc ≠ [] := by
      rw [← List.length_pos, hlen]; omega
    exact ⟨inc, hok, cumsum_chain' inc hnn, by rw [cumsum_getLastD inc 0 hne, hsum]⟩

/-- Witness for C1 at the concrete instance
`build_storm(depth=1, duration_hr=1, timestep_min=60, "huff_q2")`:
the increments of the returned series sum to exactly 1. -/
theorem claim_depth_conservation_witness :
    (buildStorm 1 1 60 "huff_q2" none none none).map (fun s => s.volume_in.sum)
      = .ok (1 : ℝ) := by
  have hchoose : (choosePattern 1 (max 1 (Int.toNat ⌈(1 : ℝ) * 60 / 60⌉)) "huff_q2" none).isOk
      = true := by
    rw [choosePattern_isOk_iff]
    exact Or.inr (Or.inr ⟨by decide, by rw [(by rfl :
      BETA_PRESETS.lookup "huff_q2" = some (2.0, 3.0))]; rfl⟩)
  obtain ⟨inc, hinc⟩ := isOk_exists _ hchoose
  have hok : buildStorm 1 1 60 "huff_q2" none none none =
      .ok (finishStorm 1 1 60 (max 1 (Int.toNat ⌈(1 : ℝ) * 60 / 60⌉)) none inc) :=
    (buildStorm_eq_ok_iff 1 1 60 "huff_q2" none none none _).mpr
      ⟨⟨by norm_num, by norm_num⟩, inc, hinc, rfl⟩
  rw [hok, Except.map]
  have h1 := (claim_depth_conservation 1 1 60 "huff_q2" none none none
    (by norm_num) (by norm_num) (by norm_num)).1 _ hok
  rw [h1]

/-- **C2 (amended)** — hard-validation raises-iff, as the code actually
behaves: a build request fails (raises) if and only if the duration or
timestep is non-positive, or the distribution name is registered in
neither registry, or the distribution is `"user"` with no custom-curve
path supplied or with an empty curve file.  The original claim also made
malformed or non-monotonic *user-supplied* curve data raise; the code
never validates the user curve (see the counterexample), and the
registered tables are all valid, so table validation never fires on this
surface. -/
theorem claim_hard_validation_iff (depth durationHr timestepMin : ℝ) (dist : String)
    (pk : Option ℝ) (cc : Option (List (ℝ × ℝ))) (st : Option ℝ) :
    (buildStorm depth durationHr timestepMin dist pk cc st).isOk = false ↔
      (durationHr ≤ 0 ∨ timestepMin ≤ 0) ∨
      (dist = "user" ∧ (cc = none ∨ cc = some [])) ∨
      (dist ≠ "user" ∧ PROPORTION_TABLES.lookup dist = none ∧
        BETA_PRESETS.lookup dist = none) := by
  rw [buildStorm]
  split
  · rename_i hbad
    exact iff_of_true rfl (Or.inl hbad)
  · rename_i hgood
    rw [exceptMap_isOk, Bool.eq_false_iff, ne_eq, choosePattern_isOk_iff]
    by_cases hu : dist = "user"
    · subst hu
      have hT : PROPORTION_TABLES.lookup "user" = none := by rfl
      cases cc with
      | none => simp [hT, hgood]
      | some rows =>
          cases rows with
          | nil => simp [hT, hgood]
          | cons r t => simp [hT, hgood]
    · simp only [hu, hgood, false_and, false_or, or_false, ne_eq, not_false_eq_true,
        true_and]
      rw [not_or, Option.not_isSome_iff_eq_none, Option.not_isSome_iff_eq_none]

/-- **C2 counterexample** — the claim as stated is false: with the
`"user"` distribution and the supplied two-row curve whose cumulative
column `[1, 0]` is *not* monotonic (second conjunct), the build request
does not raise — it succeeds (the negative increment sum is absorbed by
the uniform fallback) — contradicting the claim that malformed or
non-monotonic user-supplied curve data fails with a ValidationError. -/
theorem claim_hard_validation_counterexample :
    (buildStorm 1 1 30 "user" none (some [((0 : ℝ), 1), (1, 0)]) none).isOk = true ∧
    ¬ List.Chain' (· ≤ ·) [(1 : ℝ), 0] := by
  constructor
  · rw [buildStorm, if_neg (by norm_num), exceptMap_isOk, choosePattern_isOk_iff]
    exact Or.inr (Or.inl ⟨rfl, [((0 : ℝ), 1), (1, 0)], rfl, by simp⟩)
  · intro h
    rw [List.chain'_cons] at h
    exact absurd h.1 (by norm_num)

/-- **C3 (amended)** — single-bin intensity: whenever the bin count comes
out to exactly 1, the single bin's volume is the full depth and its
intensity is `depth / max(duration_hr, 1e-12)`; this equals
`depth / duration_hr` whenever `duration_hr ≥ 1e-12` (the original claim
omitted the `1e-12` guard of the source, which matters only for durations
below `1e-12` hours — see the counterexample). -/
theorem claim_single_bin_intensity (depth durationHr timestepMin : ℝ) (dist : String)
    (pk : Option ℝ) (cc : Option (List (ℝ × ℝ))) (st : Option ℝ) (s : StormSeries)
    (hok : buildStorm depth durationHr timestepMin dist pk cc st = .ok s)
    (hn1 : max 1 (Int.toNat ⌈durationHr * 60 / timestepMin⌉) = 1) :
    (s.volume_in = [depth] ∧ s.intensity_in_hr = [depth / max durationHr 1e-12]) ∧
    (1e-12 ≤ durationHr → s.intensity_in_hr = [depth / durationHr]) := by
  rw [buildStorm_eq_ok_iff] at hok
  obtain ⟨-, inc, hinc, rfl⟩ := hok
  obtain ⟨hsum, hlen⟩ := choosePattern_ok_sum _ _ _ _ _ hinc (le_max_left 1 _)
  rw [hn1] at hlen
  have hincv : inc = [depth] := eq_singleton_of_sum inc depth hlen hsum
  have hint : (finishStorm depth durationHr timestepMin
      (max 1 (Int.toNat ⌈durationHr * 60 / timestepMin⌉)) st inc).intensity_in_hr =
      [depth / max durationHr 1e-12] := by
    rw [finishStorm]
    dsimp only
    rw [if_pos hn1]
  refine ⟨⟨hincv, hint⟩, ?_⟩
  intro hdur
  rw [hint, max_eq_left hdur]

/-- Witness for C3 at the concrete instance of the claim:
`build_storm(depth=2.0, duration_hr=1.0, timestep_min=60.0, "huff_q2")`
yields exactly one bin with `volume_in = 2.0` and `intensity_in_hr = 2.0`. -/
theorem claim_single_bin_intensity_witness :
    (buildStorm 2 1 60 "huff_q2" none none none).map
      (fun s => (s.volume_in, s.intensity_in_hr)) = .ok ([(2 : ℝ)], [(2 : ℝ)]) := by
  have hn1 : max 1 (Int.toNat ⌈(1 : ℝ) * 60 / 60⌉) = 1 := by
    rw [nBins_eq 1 60 1 (by norm_num)]
    rfl
  have hchoose : (choosePattern 2 (max 1 (Int.toNat ⌈(1 : ℝ) * 60 / 60⌉)) "huff_q2" none).isOk
      = true := by
    rw [choosePattern_isOk_iff]
    exact Or.inr (Or.inr ⟨by decide, by rw [(by rfl :
      BETA_PRESETS.lookup "huff_q2" = some (2.0, 3.0))]; rfl⟩)
  obtain ⟨inc, hinc⟩ := isOk_exists _ hchoose
  have hok : buildStorm 2 1 60 "huff_q2" none none none =
      .ok (finishStorm 2 1 60 (max 1 (Int.toNat ⌈(1 : ℝ) * 60 / 60⌉)) none inc) :=
    (buildStorm_eq_ok_iff 2 1 60 "huff_q2" none none none _).mpr
      ⟨⟨by norm_num, by norm_num⟩, inc, hinc, rfl⟩
  have h3 := claim_single_bin_intensity 2 1 60 "huff_q2" none none none _ hok hn1
  rw [hok, Except.map, h3.1.1, h3.2 (by norm_num)]
  norm_num

/-- **C3 counterexample** — the claim's unguarded sentence "whenever the
bin count is exactly 1, intensity equals `depth / duration_hr`" fails for
durations below `1e-12` hours: at `duration_hr = 1e-13` the bin count is
1 but the intensity is `depth / 1e-12`, not `depth / duration_hr`. -/
theorem claim_single_bin_counterexample :
    (buildStorm 2 1e-13 60 "huff_q2" none none none).map (fun s => s.intensity_in_hr)
      = .ok [2 / max (1e-13 : ℝ) 1e-12] ∧
    max 1 (Int.toNat ⌈(1e-13 : ℝ) * 60 / 60⌉) = 1 ∧
    (2 / max (1e-13 : ℝ) 1e-12 : ℝ) ≠ 2 / (1e-13 : ℝ) := by
  have hval : (1e-13 : ℝ) * 60 / 60 = 1e-13 := by ring
  have hceil : ⌈(1e-13 : ℝ)⌉ = 1 := by
    rw [Int.ceil_eq_iff]
    norm_num
  have hn1 : max 1 (Int.toNat ⌈(1e-13 : ℝ) * 60 / 60⌉) = 1 := by
    rw [hval, hceil]
    rfl
  have hchoose : (choosePattern 2 (max 1 (Int.toNat ⌈(1e-13 : ℝ) * 60 / 60⌉))
      "huff_q2" none).isOk = true := by
    rw [choosePattern_isOk_iff]
    exact Or.inr (Or.inr ⟨by decide, by rw [(by rfl :
      BETA_PRESETS.lookup "huff_q2" = some (2.0, 3.0))]; rfl⟩)
  obtain ⟨inc, hinc⟩ := isOk_exists _ hchoose
  have hok : buildStorm 2 1e-13 60 "huff_q2" none none none =
      .ok (finishStorm 2 1e-13 60 (max 1 (Int.toNat ⌈(1e-13 : ℝ) * 60 / 60⌉)) none inc) :=
    (buildStorm_eq_ok_iff 2 1e-13 60 "huff_q2" none none none _).mpr
      ⟨⟨by norm_num, by norm_num⟩, inc, hinc, rfl⟩
  refine ⟨?_, hn1, ?_⟩
  · rw [hok, Except.map]
    have hint : (finishStorm 2 1e-13 60 (max 1 (Int.toNat ⌈(1e-13 : ℝ) * 60 / 60⌉))
        none inc).intensity_in_hr = [2 / max (1e-13 : ℝ) 1e-12] := by
      rw [finishStorm]
      dsimp only
      rw [if_pos hn1]
    rw [hint]
  · rw [max_eq_right (by norm_num : (1e-13 : ℝ) ≤ 1e-12)]
    norm_num

/-- **C5** — peak repositioning: for every `n ≥ 1`, `α`, `β` and integer
`peak`, the peak-shifted Beta shape equals the unshifted shape circularly
rotated by `shift = (peak − argmax(pdf)) mod n`; `argmax` ties resolve to
the lowest index (every earlier entry is strictly smaller).  Consequently
with `n = 8`, a natural peak at index 2 and requested `peak = 5`, the
result is the unshifted array rotated by 3, the entry at index 5 is the
entry that was at index 2, and it is a maximum of the rotated array. -/
theorem claim_peak_repositioning (n : ℕ) (a b : ℝ) (peak : ℤ) (hn : 0 < n) :
    betaCurve n a b peak =
      rollRight (betaPdf n a b) (((peak - (argmaxL (betaPdf n a b) : ℤ)) % (n : ℤ)).toNat) ∧
    (∀ j < argmaxL (betaPdf n a b),
      (betaPdf n a b).getD j 0 < (betaPdf n a b).getD (argmaxL (betaPdf n a b)) 0) ∧
    (n = 8 → peak = 5 → argmaxL (betaPdf n a b) = 2 →
      betaCurve n a b peak = rollRight (betaPdf n a b) 3 ∧
      (betaCurve n a b peak).get? 5 = (betaPdf n a b).get? 2 ∧
      ∀ x ∈ betaCurve n a b peak, x ≤ (betaPdf n a b).getD 2 0) := by
  have hne : betaPdf n a b ≠ [] := by
    rw [← List.length_pos, betaPdf_length]
    exact hn
  have hpart1 : betaCurve n a b peak =
      rollRight (betaPdf n a b) (((peak - (argmaxL (betaPdf n a b) : ℤ)) % (n : ℤ)).toNat) := by
    rw [betaCurve, if_neg (by omega)]
    split
    · rfl
    · rename_i hsh
      push_neg at hsh
      rw [hsh, rollRight_zero]
  refine ⟨hpart1, argmaxL_first _ hne, ?_⟩
  intro h8 h5 harg
  subst h8
  subst h5
  have hshift : (((5 : ℤ) - (argmaxL (betaPdf 8 a b) : ℤ)) % ((8 : ℕ) : ℤ)).toNat = 3 := by
    rw [harg]
    decide
  have hroll : betaCurve 8 a b 5 = rollRight (betaPdf 8 a b) 3 := by
    rw [hpart1, hshift]
  refine ⟨hroll, ?_, ?_⟩
  · rw [hroll, rollRight_get? _ 3 5 (by rw [betaPdf_length]; omega) (by omega)
      (by rw [betaPdf_length]; omega)]
  · intro x hx
    rw [hroll] at hx
    have hx' := rollRight_mem _ _ x hx
    have := argmaxL_le _ hne x hx'
    rw [harg] at this
    exact this

/-- Witness for C5: the rotation identity instantiated at `n = 1`,
`α = β = 1`, `peak = 0`. -/
theorem claim_peak_repositioning_witness :
    betaCurve 1 1 1 0 =
      rollRight (betaPdf 1 1 1) (((0 - (argmaxL (betaPdf 1 1 1) : ℤ)) % (1 : ℤ)).toNat) :=
  (claim_peak_repositioning 1 1 1 0 (by norm_num)).1

/-- **C9** — custom-curve normalization heuristic: for a user-supplied
two-column curve, a column whose maximum exceeds 1 is divided (as a
whole) by its own maximum, a column whose maximum is already ≤ 1 is left
exactly unchanged, and `_user_pdf` then interpolates exactly these
normalized columns onto the `n+1`-point grid over `[0, 1]`
(`userIncrements` is that grid interpolation). -/
theorem claim_custom_curve_normalization (n : ℕ) (rows : List (ℚ × ℚ)) (hne : rows ≠ []) :
    (maxList (rows.map Prod.fst) ≤ 1 → normalizeCol (rows.map Prod.fst) = rows.map Prod.fst) ∧
    (1 < maxList (rows.map Prod.fst) → normalizeCol (rows.map Prod.fst) =
      (rows.map Prod.fst).map (· / maxList (rows.map Prod.fst))) ∧
    (maxList (rows.map Prod.snd) ≤ 1 → normalizeCol (rows.map Prod.snd) = rows.map Prod.snd) ∧
    (1 < maxList (rows.map Prod.snd) → normalizeCol (rows.map Prod.snd) =
      (rows.map Prod.snd).map (· / maxList (rows.map Prod.snd))) ∧
    userPdf n rows =
      (if (userIncrements (normalizeCol (rows.map Prod.fst))
            (normalizeCol (rows.map Prod.snd)) n).sum ≤ 0
       then .ok (List.replicate n (1 / (n : ℚ)))
       else .ok ((userIncrements (normalizeCol (rows.map Prod.fst))
            (normalizeCol (rows.map Prod.snd)) n).map
            (· / (userIncrements (normalizeCol (rows.map Prod.fst))
              (normalizeCol (rows.map Prod.snd)) n).sum))) := by
  refine ⟨fun h => ?_, fun h => ?_, fun h => ?_, fun h => ?_, ?_⟩
  · rw [normalizeCol, if_neg (not_lt.mpr h)]
  · rw [normalizeCol, if_pos h]
  · rw [normalizeCol, if_neg (not_lt.mpr h)]
  · rw [normalizeCol, if_pos h]
  · rw [userPdf, if_neg (by simpa using hne)]

/-- Witness for C9 at the concrete curve `[(0, 0), (2, 5)]`: the second
column has maximum `5 > 1` and is divided by it; evaluating the theorem's
normalization clause at this input. -/
theorem claim_custom_curve_normalization_witness :
    normalizeCol (([((0 : ℚ), (0 : ℚ)), (2, 5)]).map Prod.snd) =
      (([((0 : ℚ), (0 : ℚ)), (2, 5)]).map Prod.snd).map
        (· / maxList (([((0 : ℚ), (0 : ℚ)), (2, 5)]).map Prod.snd)) :=
  (claim_custom_curve_normalization 2 [((0 : ℚ), (0 : ℚ)), (2, 5)]
    (by decide)).2.2.2.1 (by decide)

/-! ## The NOAA free-text DDF parser (`_parse_noaa_text_to_df` and friends)

Strings are processed as `List Char`; the regular expressions of the
source are implemented as direct character scanners with the same
semantics on the regex dialect actually used. -/

theorem dropWhile_length_le {α : Type} (p : α → Bool) :
    ∀ l : List α, (l.dropWhile p).length ≤ l.length
  | [] => le_refl 0
  | a :: t => by
      rw [List.dropWhile_cons]
      split
      · exact le_trans (dropWhile_length_le p t) (Nat.le_succ _)
      · exact le_refl _

/-- A regex word character (`\w`): ASCII alphanumeric or underscore
(inputs are ASCII). -/
def wordChar (c : Char) : Bool := c.isAlphanum || c == '_'

def isWs (c : Char) : Bool := c.isWhitespace

/-- Python `str.strip()`. -/
def trimC (l : List Char) : List Char :=
  ((l.dropWhile isWs).reverse.dropWhile isWs).reverse

/-- Python `str.rstrip(":")`. -/
def stripColonsRight (l : List Char) : List Char :=
  (l.reverse.dropWhile (· == ':')).reverse

/-- `str.splitlines()` (on `'\n'`; a `'\r'` is later removed by the
per-line `strip()`). -/
def splitNl : List Char → List (List Char)
  | [] => [[]]
  | c :: t =>
      if c == '\n' then [] :: splitNl t
      else
        match splitNl t with
        | [] => [[c]]
        | h :: r => (c :: h) :: r

/-- Does `hay` start with `pat`? -/
def startsWithL : List Char → List Char → Bool
  | _, [] => true
  | [], _ :: _ => false
  | a :: as, b :: bs => a == b && startsWithL as bs

/-- Does `pat` occur as a contiguous substring of `hay` (Python `in`)? -/
def hasSub (pat : List Char) : List Char → Bool
  | [] => pat.isEmpty
  | c :: t => startsWithL (c :: t) pat || hasSub pat t

/-- Python `s.split(pat)[-1]`: the suffix after the last occurrence of
`pat` under left-to-right non-overlapping splitting (the whole string if
`pat` does not occur). -/
def afterLastF (pat : List Char) : ℕ → List Char → List Char
  | _, [] => []
  | 0, l => l
  | fuel + 1, c :: t =>
      if startsWithL (c :: t) pat then afterLastF pat fuel ((c :: t).drop pat.length)
      else if hasSub pat t then afterLastF pat fuel t else c :: t

/-- Python `s.split(pat)[-1]`: the suffix after the last occurrence of
`pat` under left-to-right non-overlapping splitting (the whole string if
`pat` does not occur).  A non-empty `pat` shortens the list at every
step, so `l.length` fuel always suffices. -/
def afterLast (pat : List Char) (l : List Char) : List Char :=
  if pat.isEmpty then l else afterLastF pat l.length l

def natOfDigits (l : List Char) : ℕ :=
  l.foldl (fun a c => a * 10 + (c.toNat - 48)) 0

def wordRunsF : ℕ → List Char → List (List Char)
  | _, [] => []
  | 0, _ => []
  | fuel + 1, c :: t =>
      if wordChar c then (c :: t.takeWhile wordChar) :: wordRunsF fuel (t.dropWhile wordChar)
      else wordRunsF fuel t

/-- The maximal word-character runs of a string.  `re.findall(r"\b\d+\b")`
returns exactly the all-digit runs among these.  Each step shortens the
list, so `l.length` fuel always suffices. -/
def wordRuns (l : List Char) : List (List Char) := wordRunsF l.length l

/-- The three duration-unit classes of `_label_to_minutes`. -/
inductive DurUnit where
  | minutes : DurUnit
  | hours : DurUnit
  | days : DurUnit
deriving DecidableEq

/-- The unit alternation `min|minute|minutes|hr|hour|hours|day|days` of
`_DURATION_RE`, in the regex's order, classified as in
`_label_to_minutes` (`min* → minutes`, `hr/hour* → hours`, else days). -/
def unitWords : List (List Char × DurUnit) :=
  [("min".toList, .minutes), ("minute".toList, .minutes), ("minutes".toList, .minutes),
   ("hr".toList, .hours), ("hour".toList, .hours), ("hours".toList, .hours),
   ("day".toList, .days), ("days".toList, .days)]

/-- Matches the regex tail `\s*:?$`. -/
def tailOk (t : List Char) : Bool :=
  match t.dropWhile isWs with
  | [] => true
  | [c] => c == ':'
  | _ => false

/-- Case-insensitive match of a unit word followed by `\s*:?$`. -/
def matchUnit (low : List Char) : Option DurUnit :=
  unitWords.findSome? fun wu =>
    if startsWithL low wu.1 && tailOk (low.drop wu.1.length) then some wu.2 else none

def takeDigits (l : List Char) : List Char × List Char :=
  (l.takeWhile Char.isDigit, l.dropWhile Char.isDigit)

/-- `_DURATION_RE.match`:
`^\s*(\d+(?:\.\d+)?)\s*[- ]\s*(min|…|days)\s*:?$` (IGNORECASE).  The
separator segment `\s*[- ]\s*` is a run of whitespace/dash characters
containing either exactly one dash or at least one plain space. -/
def parseDurationC (l : List Char) : Option (ℚ × DurUnit) :=
  let l1 := l.dropWhile isWs
  let ds := (takeDigits l1).1
  let r1 := (takeDigits l1).2
  if ds.isEmpty then none
  else
    let numr : ℚ × List Char :=
      match r1 with
      | '.' :: rf =>
          if (takeDigits rf).1.isEmpty then ((natOfDigits ds : ℚ), r1)
          else ((natOfDigits ds : ℚ) +
            (natOfDigits (takeDigits rf).1 : ℚ) / 10 ^ (takeDigits rf).1.length,
            (takeDigits rf).2)
      | _ => ((natOfDigits ds : ℚ), r1)
    let sep := numr.2.takeWhile (fun c => isWs c || c == '-')
    let r6 := numr.2.dropWhile (fun c => isWs c || c == '-')
    if sep.countP (· == '-') == 1 ∨ (sep.countP (· == '-') == 0 ∧ sep.any (· == ' ')) then
      match matchUnit (r6.map Char.toLower) with
      | some u => some (numr.1, u)
      | none => none
    else none

/-- `_label_to_minutes` (`NaN` for an unparsable label becomes `none`). -/
def labelToMinutes (s : String) : Option ℚ :=
  match parseDurationC (stripColonsRight (trimC s.toList)) with
  | none => none
  | some (num, .minutes) => some num
  | some (num, .hours) => some (num * 60)
  | some (num, .days) => some (num * 1440)

theorem dropWhile_length_lt {α : Type} (p : α → Bool) (l : List α)
    (h : ¬ (l.takeWhile p).isEmpty) : (l.dropWhile p).length < l.length := by
  cases l with
  | nil => simp at h
  | cons a t =>
      rw [List.takeWhile_cons] at h
      rw [List.dropWhile_cons]
      by_cases hp : p a
      · rw [if_pos hp]
        have := dropWhile_length_le p t
        simp only [List.length_cons]
        omega
      · rw [if_neg hp] at h
        simp at h

/-- The mantissa part `\d*\.\d+|\d+` of the numeric-token regex of
`_parse_noaa_text_to_df`, with the value Python's `float` would parse
(exact in the rational model). -/
def parseMantissa (l : List Char) : Option (ℚ × List Char) :=
  match (takeDigits l).2 with
  | '.' :: rf =>
      if ((takeDigits rf).1).isEmpty then
        if ((takeDigits l).1).isEmpty then none
        else some ((natOfDigits (takeDigits l).1 : ℚ), (takeDigits l).2)
      else
        some ((natOfDigits (takeDigits l).1 : ℚ) +
          (natOfDigits (takeDigits rf).1 : ℚ) / 10 ^ ((takeDigits rf).1).length,
          (takeDigits rf).2)
  | _ =>
      if ((takeDigits l).1).isEmpty then none
      else some ((natOfDigits (takeDigits l).1 : ℚ), (takeDigits l).2)

/-- Helper for the exponent: `\d+` after the (possibly signed) `e`/`E`;
consumes nothing (returning `orig`) when no digits follow. -/
def parseExpDigits (sign : ℤ) (r2 orig : List Char) : ℤ × List Char :=
  if ((takeDigits r2).1).isEmpty then (0, orig)
  else (sign * (natOfDigits (takeDigits r2).1 : ℤ), (takeDigits r2).2)

/-- The optional exponent `(?:[eE][-+]?\d+)?`; nothing is consumed when
the tail does not complete an exponent. -/
def parseExp (l : List Char) : ℤ × List Char :=
  match l with
  | c :: s :: r2 =>
      if c == 'e' ∨ c == 'E' then
        if s == '+' then parseExpDigits 1 r2 l
        else if s == '-' then parseExpDigits (-1) r2 l
        else parseExpDigits 1 (s :: r2) l
      else (0, l)
  | _ => (0, l)

/-- The optional leading sign `[-+]?`: the sign factor and the rest. -/
def signOf (l : List Char) : ℚ × List Char :=
  match l with
  | '+' :: r => (1, r)
  | '-' :: r => (-1, r)
  | _ => (1, l)

/-- One numeric token `[-+]?(?:\d*\.\d+|\d+)(?:[eE][-+]?\d+)?` at the
start of `l`, with its `float` value and the unconsumed tail. -/
def parseTok (l : List Char) : Option (ℚ × List Char) :=
  match parseMantissa (signOf l).2 with
  | none => none
  | some mr => some ((signOf l).1 * mr.1 * 10 ^ (parseExp mr.2).1, (parseExp mr.2).2)

theorem takeDigits_snd_length_le (l : List Char) : ((takeDigits l).2).length ≤ l.length :=
  dropWhile_length_le _ l

theorem parseMantissa_length (l : List Char) (q : ℚ) (r : List Char)
    (h : parseMantissa l = some (q, r)) : r.length < l.length := by
  have hds := takeDigits_snd_length_le l
  rw [parseMantissa] at h
  split at h
  · rename_i rf hrf
    rw [hrf] at hds
    simp only [List.length_cons] at hds
    split at h
    · split at h
      · exact absurd h (by simp)
      · rename_i hne
        simp only [Option.some.injEq, Prod.mk.injEq] at h
        obtain ⟨-, hr⟩ := h
        subst hr
        exact dropWhile_length_lt Char.isDigit l hne
    · simp only [Option.some.injEq, Prod.mk.injEq] at h
      obtain ⟨-, hr⟩ := h
      subst hr
      have := takeDigits_snd_length_le rf
      omega
  · split at h
    · exact absurd h (by simp)
    · rename_i hne
      simp only [Option.some.injEq, Prod.mk.injEq] at h
      obtain ⟨-, hr⟩ := h
      subst hr
      exact dropWhile_length_lt Char.isDigit l hne

theorem parseExpDigits_length (sign : ℤ) (r2 orig : List Char) (h : r2.length ≤ orig.length) :
    ((parseExpDigits sign r2 orig).2).length ≤ orig.length := by
  rw [parseExpDigits]
  split
  · exact le_refl _
  · exact le_trans (takeDigits_snd_length_le r2) h

theorem parseExp_length_le (l : List Char) : ((parseExp l).2).length ≤ l.length := by
  cases l with
  | nil => simp [parseExp]
  | cons c r =>
      cases r with
      | nil => simp [parseExp]
      | cons s r2 =>
          rw [parseExp]
          split_ifs
          · exact parseExpDigits_length 1 r2 _ (by simp only [List.length_cons]; omega)
          · exact parseExpDigits_length (-1) r2 _ (by simp only [List.length_cons]; omega)
          · exact parseExpDigits_length 1 (s :: r2) _ (by simp only [List.length_cons]; omega)
          · exact le_refl _

theorem signOf_snd_length_le (l : List Char) : ((signOf l).2).length ≤ l.length := by
  rw [signOf.eq_def]
  split <;> simp

theorem parseTok_length (l : List Char) (q : ℚ) (r : List Char)
    (h : parseTok l = some (q, r)) : r.length < l.length := by
  rw [parseTok] at h
  split at h
  · exact absurd h (by simp)
  · rename_i mr hmr
    simp only [Option.some.injEq, Prod.mk.injEq] at h
    obtain ⟨-, hr⟩ := h
    subst hr
    have h1 := parseMantissa_length (signOf l).2 mr.1 mr.2 (by rw [hmr])
    have h2 := parseExp_length_le mr.2
    have h3 := signOf_snd_length_le l
    omega

def findNumbersF : ℕ → List Char → List ℚ
  | _, [] => []
  | 0, _ => []
  | fuel + 1, c :: t =>
      match parseTok (c :: t) with
      | some qr => qr.1 :: findNumbersF fuel qr.2
      | none => findNumbersF fuel t

/-- `re.findall` of the numeric-token regex over a line: scan left to
right, taking each token where one matches and advancing one character
where none does.  By `parseTok_length` every step shortens the list, so
`l.length` fuel always suffices. -/
def findNumbers (l : List Char) : List ℚ := findNumbersF l.length l

/-- `re.match(r"^([^:]+):\s*(.*)$", line)`: the (non-empty, colon-free)
text before the first colon, and the rest with leading whitespace
stripped. -/
def splitFirstColon (l : List Char) : Option (List Char × List Char) :=
  match l.dropWhile (fun c => !(c == ':')) with
  | ':' :: after =>
      if (l.takeWhile (fun c => !(c == ':'))).isEmpty then none
      else some (l.takeWhile (fun c => !(c == ':')), after)
  | _ => none

/-- The DDF matrix: duration-labelled rows over return-period columns;
a missing/NaN cell is `none`. -/
structure DDFTable where
  cols : List String
  rows : List (String × List (Option ℚ))
deriving DecidableEq

def ariMarker : List Char := "ARI (years)".toList

/-- One data row of `_parse_noaa_text_to_df`: a `label: rest` line whose
label matches the duration pattern; tokens are truncated to the column
count or padded with the missing marker. -/
def parseRowC (ncols : ℕ) (ln : List Char) : Option (String × List (Option ℚ)) :=
  match splitFirstColon ln with
  | none => none
  | some br =>
      match parseDurationC (trimC br.1) with
      | none => none
      | some _ =>
          some (String.mk (stripColonsRight (trimC br.1)),
            ((findNumbers (br.2.dropWhile isWs)).take ncols).map some ++
              List.replicate (ncols - (findNumbers (br.2.dropWhile isWs)).length) none)

/-- The stripped non-empty lines of the input text. -/
def noaaLines (txt : String) : List (List Char) :=
  ((splitNl txt.toList).map trimC).filter (fun l => !l.isEmpty)

/-- The column keys read off a header line: the all-digit word runs
after the last `"ARI (years)"` marker, as strings. -/
def noaaCols (header : List Char) : List String :=
  ((wordRuns (afterLast ariMarker header)).filter
    (fun r => r.all Char.isDigit)).map (fun r => toString (natOfDigits r))

/-- `_parse_noaa_text_to_df`: find the `"ARI (years)"` header line, read
the integer year tokens after its last marker occurrence as column keys,
then collect every duration-labelled data row; `none` when the header,
the columns or all rows are missing. -/
def parseNoaaText (txt : String) : Option DDFTable :=
  match (noaaLines txt).find? (fun l => hasSub ariMarker l) with
  | none => none
  | some header =>
      if (noaaCols header).isEmpty then none
      else if ((noaaLines txt).filterMap (parseRowC (noaaCols header).length)).isEmpty then
        none
      else some ⟨noaaCols header, (noaaLines txt).filterMap (parseRowC (noaaCols header).length)⟩

/-- Python `round` (banker's rounding, round-half-to-even) on an exact
rational. -/
def roundHalfEven (q : ℚ) : ℤ :=
  if q - (⌊q⌋ : ℚ) < 1 / 2 then ⌊q⌋
  else if (1 : ℚ) / 2 < q - (⌊q⌋ : ℚ) then ⌊q⌋ + 1
  else if ⌊q⌋ % 2 = 0 then ⌊q⌋ else ⌊q⌋ + 1

/-- The `diffs` list of `_nearest_row_index`: for each row the absolute
difference between its duration in minutes and the target, with `inf`
(`⊤`) for unparsable labels. -/
def distList (df : DDFTable) (target : ℚ) : List (WithTop ℚ) :=
  df.rows.map fun r =>
    match labelToMinutes r.1 with
    | none => (⊤ : WithTop ℚ)
    | some m => ((|m - target| : ℚ) : WithTop ℚ)

/-- Python `min` over the distances. -/
def minDist : List (WithTop ℚ) → WithTop ℚ
  | [] => ⊤
  | x :: t => min x (minDist t)

/-- `_nearest_row_index`: `diffs.index(min(diffs))`. -/
def nearestRowIdx (df : DDFTable) (target : ℚ) : ℕ :=
  (distList df target).indexOf (minDist (distList df target))

/-- `fetch_noaa_depth` with the network fetch abstracted to the already
parsed table (`none` = download failed or parsed to nothing).  Returns
`none` for an absent/empty table, a missing return-period column, or a
missing/non-finite selected cell. -/
def fetchNoaaDepth (tbl : Option DDFTable) (durationHr ari : ℚ) : Option ℚ :=
  match tbl with
  | none => none
  | some df =>
      if df.rows.isEmpty ∨ df.cols.isEmpty then none
      else if toString (roundHalfEven ari) ∈ df.cols then
        match df.rows.get? (nearestRowIdx df (durationHr * 60)) with
        | none => none
        | some r =>
            match r.2.get? (df.cols.indexOf (toString (roundHalfEven ari))) with
            | some (some v) => some v
            | _ => none
      else none


theorem parseRowC_length (ncols : ℕ) (ln : List Char) (r : String × List (Option ℚ))
    (h : parseRowC ncols ln = some r) : r.2.length = ncols := by
  rw [parseRowC] at h
  split at h
  · exact absurd h (by simp)
  · split at h
    · exact absurd h (by simp)
    · rw [Option.some_inj] at h
      subst h
      simp only [List.length_append, List.length_map, List.length_take, List.length_replicate]
      omega

/-- Every parsed row is padded or truncated to exactly the column
count. -/
theorem parseNoaaText_row_length (txt : String) (df : DDFTable)
    (h : parseNoaaText txt = some df) : ∀ r ∈ df.rows, r.2.length = df.cols.length := by
  rw [parseNoaaText.eq_def] at h
  split at h
  · exact absurd h (by simp)
  · split at h
    · exact absurd h (by simp)
    · split at h
      · exact absurd h (by simp)
      · rw [Option.some_inj] at h
        subst h
        intro r hr
        simp only [List.mem_filterMap] at hr
        obtain ⟨ln, _, hp⟩ := hr
        exact parseRowC_length _ ln r hp

theorem minDist_le (l : List (WithTop ℚ)) : ∀ x ∈ l, minDist l ≤ x := by
  induction l with
  | nil => simp
  | cons a t ih =>
      intro x hx
      rw [List.mem_cons] at hx
      rcases hx with rfl | hx
      · exact min_le_left _ _
      · exact le_trans (min_le_right _ _) (ih x hx)

theorem minDist_mem (l : List (WithTop ℚ)) (h : l ≠ []) : minDist l ∈ l := by
  induction l with
  | nil => exact absurd rfl h
  | cons a t ih =>
      cases t with
      | nil =>
          have he : minDist [a] = a := by
            rw [minDist, minDist]
            exact min_eq_left le_top
          rw [he]
          exact List.mem_cons_self a []
      | cons b u =>
          rw [minDist]
          rcases min_choice a (minDist (b :: u)) with hm | hm
          · rw [hm]
            exact List.mem_cons_self _ _
          · rw [hm]
            exact List.mem_cons_of_mem _ (ih (by simp))

theorem distList_length (df : DDFTable) (t : ℚ) :
    (distList df t).length = df.rows.length := by
  rw [distList, List.length_map]

theorem distList_ne_nil (df : DDFTable) (t : ℚ) (h : df.rows ≠ []) :
    distList df t ≠ [] := by
  rw [distList]
  simpa using h

theorem nearestRowIdx_lt (df : DDFTable) (t : ℚ) (h : df.rows ≠ []) :
    nearestRowIdx df t < df.rows.length := by
  rw [nearestRowIdx, ← distList_length df t]
  exact List.indexOf_lt_length.mpr (minDist_mem _ (distList_ne_nil df t h))

theorem nearestRowIdx_getD (df : DDFTable) (t : ℚ) (h : df.rows ≠ []) :
    (distList df t).getD (nearestRowIdx df t) ⊤ = minDist (distList df t) := by
  have hlt : nearestRowIdx df t < (distList df t).length := by
    rw [nearestRowIdx]
    exact List.indexOf_lt_length.mpr (minDist_mem _ (distList_ne_nil df t h))
  rw [List.getD_eq_getElem _ _ hlt]
  exact List.getElem_indexOf hlt

theorem nearestRowIdx_le (df : DDFTable) (t : ℚ) (h : df.rows ≠ []) :
    ∀ x ∈ distList df t, (distList df t).getD (nearestRowIdx df t) ⊤ ≤ x := by
  rw [nearestRowIdx_getD df t h]
  exact minDist_le _

theorem nearestRowIdx_first (df : DDFTable) (t : ℚ) (h : df.rows ≠ []) :
    ∀ j < nearestRowIdx df t,
      (distList df t).getD (nearestRowIdx df t) ⊤ < (distList df t).getD j ⊤ := by
  intro j hj
  have hlt : nearestRowIdx df t < (distList df t).length := by
    rw [nearestRowIdx]
    exact List.indexOf_lt_length.mpr (minDist_mem _ (distList_ne_nil df t h))
  have hjl : j < (distList df t).length := lt_trans hj hlt
  have hne : (distList df t).getD j ⊤ ≠ minDist (distList df t) := by
    have hj' : j < List.findIdx (· == minDist (distList df t)) (distList df t) := hj
    have hfind := List.not_of_lt_findIdx hj'
    rw [List.getD_eq_getElem _ _ hjl]
    simpa using hfind
  have hle : minDist (distList df t) ≤ (distList df t).getD j ⊤ := by
    rw [List.getD_eq_getElem _ _ hjl]
    exact minDist_le _ _ (List.getElem_mem _)
  rw [nearestRowIdx_getD df t h]
  exact lt_of_le_of_ne hle (Ne.symm hne)

/-- The worked DDF text of the claim: metadata, a coordinate line, the
`ARI (years)` header and one duration row. -/
def noaaExampleText : String :=
  "Station metadata\nLatitude: 40.44\nPrecipFreq ARI (years): 2 5 10 25\n6-hr: 1.2 1.8 2.3 3.0\n"

/-- The matrix the claim expects from `noaaExampleText`. -/
def noaaExampleDDF : DDFTable :=
  ⟨["2", "5", "10", "25"], [("6-hr", [some 1.2, some 1.8, some 2.3, some 3.0])]⟩

set_option maxRecDepth 40000 in
/-- **C7** (DDF text parsing): the worked text parses to exactly the
matrix with the single row `"6-hr"`, columns `["2","5","10","25"]` and
cell `(6-hr, 10) = 2.3` — the `"Latitude: 40.44"` line contributes no
row; signed/decimal/exponential tokens are read (`"-1.5e+2 .5"` gives
`-150` and `1/2`) and rows are padded with the missing marker or
truncated to the column count, so every parsed row has exactly as many
cells as there are columns. -/
theorem claim_ddf_parsing :
    parseNoaaText noaaExampleText = some noaaExampleDDF ∧
    (noaaExampleDDF.rows.find? (fun r => r.1 == "6-hr")).map
        (fun r => r.2.get? (noaaExampleDDF.cols.indexOf "10")) = some (some (some (23 / 10))) ∧
    parseRowC 3 "2-day: -1.5e+2 .5".toList = some ("2-day", [some (-150), some (1 / 2), none]) ∧
    parseRowC 1 "30-min: 1 2 3".toList = some ("30-min", [some 1]) ∧
    (∀ txt df, parseNoaaText txt = some df → ∀ r ∈ df.rows, r.2.length = df.cols.length) := by
  exact ⟨by decide, by decide, by decide, by decide, parseNoaaText_row_length⟩

set_option maxRecDepth 40000 in
theorem claim_ddf_parsing_witness :
    ("6-hr", [some (12 / 10 : ℚ), some (18 / 10), some (23 / 10), some 3]).2.length
      = noaaExampleDDF.cols.length :=
  claim_ddf_parsing.2.2.2.2 noaaExampleText noaaExampleDDF (by decide)
    ("6-hr", [some (12 / 10), some (18 / 10), some (23 / 10), some 3]) (by decide)

/-- A small parsed DDF matrix: one return-period column and two
duration rows. -/
def ddfExample : DDFTable := ⟨["10"], [("30-min", [some 1]), ("1-hr", [some 2])]⟩

/-- **C8** (depth resolution): `fetchNoaaDepth` returns `none` for an
absent table, an empty table, a missing return-period column (matched
as the exact string of the rounded ARI) and a missing/non-finite
selected cell, and returns the cell for the selected row and column
otherwise; the selected row index is in range and its distance entry —
duration label in minutes against `duration_hr * 60`, `⊤` for an
unparsable label — is a minimum of the distance list, strictly below
every earlier entry (ties go to the first row), and is never `⊤` when
any row's label parses. -/
theorem claim_depth_resolution :
    (∀ d a : ℚ, fetchNoaaDepth none d a = none) ∧
    (∀ df (d a : ℚ), df.rows.isEmpty ∨ df.cols.isEmpty → fetchNoaaDepth (some df) d a = none) ∧
    (∀ df (d a : ℚ), toString (roundHalfEven a) ∉ df.cols → fetchNoaaDepth (some df) d a = none) ∧
    (∀ df (d a : ℚ) r, ¬(df.rows.isEmpty ∨ df.cols.isEmpty) →
      toString (roundHalfEven a) ∈ df.cols →
      df.rows.get? (nearestRowIdx df (d * 60)) = some r →
      r.2.get? (df.cols.indexOf (toString (roundHalfEven a))) = some none →
      fetchNoaaDepth (some df) d a = none) ∧
    (∀ df (d a v : ℚ) r, ¬(df.rows.isEmpty ∨ df.cols.isEmpty) →
      toString (roundHalfEven a) ∈ df.cols →
      df.rows.get? (nearestRowIdx df (d * 60)) = some r →
      r.2.get? (df.cols.indexOf (toString (roundHalfEven a))) = some (some v) →
      fetchNoaaDepth (some df) d a = some v) ∧
    (∀ df (t : ℚ), df.rows ≠ [] →
      nearestRowIdx df t < df.rows.length ∧
      (∀ x ∈ distList df t, (distList df t).getD (nearestRowIdx df t) ⊤ ≤ x) ∧
      (∀ j < nearestRowIdx df t,
        (distList df t).getD (nearestRowIdx df t) ⊤ < (distList df t).getD j ⊤)) ∧
    (∀ df (t : ℚ), (∃ x ∈ distList df t, x ≠ ⊤) →
      (distList df t).getD (nearestRowIdx df t) ⊤ ≠ ⊤) := by
  refine ⟨fun d a => rfl, ?_, ?_, ?_, ?_, ?_, ?_⟩
  · intro df d a h
    rw [fetchNoaaDepth, if_pos h]
  · intro df d a h
    by_cases he : df.rows.isEmpty ∨ df.cols.isEmpty
    · rw [fetchNoaaDepth, if_pos he]
    · rw [fetchNoaaDepth, if_neg he, if_neg h]
  · intro df d a r he hc hrow hcell
    rw [fetchNoaaDepth, if_neg he, if_pos hc, hrow]
    dsimp only
    rw [hcell]
  · intro df d a v r he hc hrow hcell
    rw [fetchNoaaDepth, if_neg he, if_pos hc, hrow]
    dsimp only
    rw [hcell]
  · intro df t h
    exact ⟨nearestRowIdx_lt df t h, nearestRowIdx_le df t h, nearestRowIdx_first df t h⟩
  · intro df t hx
    obtain ⟨x, hxm, hxt⟩ := hx
    have hne : df.rows ≠ [] := by
      intro hnil
      rw [distList, hnil] at hxm
      simp at hxm
    have hle := nearestRowIdx_le df t hne x hxm
    exact ne_top_of_le_ne_top hxt hle

set_option maxRecDepth 40000 in
theorem claim_depth_resolution_witness :
    fetchNoaaDepth (some ddfExample) 1 10 = some 2 ∧
      nearestRowIdx ddfExample 60 < ddfExample.rows.length :=
  ⟨claim_depth_resolution.2.2.2.2.1 ddfExample 1 10 2 ("1-hr", [some 2])
      (by decide) (by decide) (by decide) (by decide),
    (claim_depth_resolution.2.2.2.2.2.1 ddfExample 60 (by decide)).1⟩
